import Mathlib

/-!
Verification of the query-filter compiler (`FieldLookupBackend` in
`ansible_base/rest_filters/rest_framework/field_lookup_backend.py`) and of the
JWT key-resolution / user-provisioning protocol of this repository.

Python strings are embedded as lists of characters (`PyStr`); the Python
string primitives used by the source (`startswith`, `endswith`, `rsplit`,
`split`, `replace`, `in`, slicing) are modelled below with the same
semantics.  Django model/field introspection is the external schema oracle
of the spec (section 2): a `Model` carries an opaque `resolve` function
standing for `get_fields_from_path`.
-/

deriving instance DecidableEq for Except

/-- Python strings, embedded as their list of characters. -/
abbrev PyStr := List Char

/-- The characters of a Lean string literal, used to write `PyStr` constants. -/
def pys (s : String) : PyStr := s.data

/-- Python `s.startswith(pre)`: the first `len(pre)` characters equal `pre`. -/
def pyStartsWith (s pre : PyStr) : Bool := decide (s.take pre.length = pre)

/-- Python `s.endswith(suf)`: the last `len(suf)` characters equal `suf`. -/
def pyEndsWith (s suf : PyStr) : Bool := decide (s.drop (s.length - suf.length) = suf)

/-- Python `s.rsplit('__', 1)`: split at the last occurrence of `'__'`;
`none` when `'__'` does not occur in `s` (Python then returns `[s]`). -/
def rsplitUU : PyStr → Option (PyStr × PyStr)
  | [] => none
  | [_] => none
  | c :: d :: tail =>
    match rsplitUU (d :: tail) with
    | some (a, b) => some (c :: a, b)
    | none => if c = '_' ∧ d = '_' then some ([], tail) else none

/-- Python `'__' in s`. -/
def containsUU (s : PyStr) : Bool := (rsplitUU s).isSome

/-- Python `s.split(',')` (always at least one, possibly empty, group). -/
def pySplitComma : PyStr → List PyStr
  | [] => [[]]
  | c :: rest =>
    if c = ',' then [] :: pySplitComma rest
    else
      match pySplitComma rest with
      | [] => [[c]]
      | g :: gs => (c :: g) :: gs

/-- Python `s.split('__')` (left-to-right, non-overlapping). -/
def pySplitUU : PyStr → List PyStr
  | [] => [[]]
  | '_' :: '_' :: rest =>
    match pySplitUU rest with
    | gs => [] :: gs
  | c :: rest =>
    match pySplitUU rest with
    | [] => [[c]]
    | g :: gs => (c :: g) :: gs

/-- Python `pat in s` (substring containment). -/
def containsSub (pat : PyStr) : PyStr → Bool
  | [] => decide (pat = [])
  | c :: rest => (decide ((c :: rest).take pat.length = pat)) || containsSub pat rest

/-- Fuel-driven worker for `pyReplace`; the fuel is the length of the string,
which suffices because every step consumes at least one character. -/
def pyReplaceFuel (pat rep : PyStr) : Nat → PyStr → PyStr
  | 0, s => s
  | _ + 1, [] => []
  | fuel + 1, c :: rest =>
    if pat ≠ [] ∧ (c :: rest).take pat.length = pat then
      rep ++ pyReplaceFuel pat rep fuel ((c :: rest).drop pat.length)
    else
      c :: pyReplaceFuel pat rep fuel rest

/-- Python `s.replace(pat, rep)`: left-to-right, non-overlapping replacement
of every occurrence (for non-empty `pat`, the only way the source uses it). -/
def pyReplace (pat rep s : PyStr) : PyStr := pyReplaceFuel pat rep s.length s

/-- Python `s.lower()` (ASCII case folding; all values the source lowers are
ASCII keywords such as `"None"`, `"null"`, `"true"`). -/
def pyLower (s : PyStr) : PyStr := s.map Char.toLower

/-- `s.encode("ascii")` succeeds exactly when every character is ASCII. -/
def pyIsAscii (s : PyStr) : Bool := s.all (fun c => c.toNat ≤ 127)

/-- Python `int(value)` on a string: optional surrounding spaces, optional
sign, then decimal digits.  (Separator underscores of numeric literals are
not modelled; no value in this development uses them.) -/
def pyIntCore (s : PyStr) : Option Int :=
  let t := (s.dropWhile (· = ' ')).reverse.dropWhile (· = ' ') |>.reverse
  let (sign, digits) :=
    match t with
    | '-' :: ds => ((-1 : Int), ds)
    | '+' :: ds => ((1 : Int), ds)
    | ds => ((1 : Int), ds)
  if digits ≠ [] ∧ digits.all Char.isDigit then
    some (sign * (digits.foldl (fun n c => n * 10 + (c.toNat - '0'.toNat)) (0 : Nat) : Nat))
  else none

/-- Python `int(value)`, with the `ValueError` message on failure. -/
def pyInt (s : PyStr) : Except PyStr Int :=
  match pyIntCore s with
  | some n => .ok n
  | none => .error (pys "invalid literal for int() with base 10: " ++ s)

/-! ## Data model: field descriptors and the schema oracle -/

/-- The closed variant of Django field kinds the source dispatches on:
`BooleanField`, `CharField`, `IntegerField`, `TextField`, `JSONField`, the
relation field classes (`ForeignObjectRel`, `ManyToManyField`,
`GenericForeignKey`, `ForeignKey`), and any other field class. -/
inductive FieldKind where
  | boolean
  | char
  | integer
  | text
  | json
  | relation
  | generic
  deriving DecidableEq, Repr

/-- A resolved Django field as the source consumes it: its `name`, its kind,
and (for `related_model._meta.fields`) the names of the fields of its related
model, in meta order; `none` models `getattr(field, 'related_model', None)`
being `None`. -/
structure FieldD where
  name : PyStr
  kind : FieldKind
  relatedFields : Option (List PyStr) := none
  deriving DecidableEq, Repr

/-- The schema-and-environment oracle handed to the compiler: the Django
model of the queryset.  `resolve` stands for `get_fields_from_path(model,
path, treat_jsonfield_as_text=...)` (external to this repository's core, an
opaque schema oracle per the spec): it returns the chain of fields traversed
and the canonical new path, or a field-resolution error.
`hasAccessiblePkQs` is `hasattr(model, 'accessible_pk_qs')`, and
`regexCompiles` stands for `re.compile(value)` succeeding (the `re` module
being external). -/
structure Model where
  objectName : PyStr
  resolve : PyStr → Except PyStr (List FieldD × PyStr)
  hasAccessiblePkQs : Bool
  regexCompiles : PyStr → Bool

/-- Scalar Python values produced by the per-field conversions of the
source (`to_python_boolean`, `to_python_related`, `field.to_python`). -/
inductive PyScalar where
  | str (s : PyStr)
  | int (n : Int)
  | bool (b : Bool)
  | none
  deriving DecidableEq, Repr

/-- Python values carried by compiled filters: a scalar, or (for `__in`)
the list of converted scalar items. -/
inductive PyVal where
  | scalar (v : PyScalar)
  | list (xs : List PyScalar)
  deriving DecidableEq, Repr

/-- Shorthand constructors matching the Python value shapes. -/
def PyVal.str (s : PyStr) : PyVal := .scalar (.str s)

def PyVal.int (n : Int) : PyVal := .scalar (.int n)

def PyVal.bool (b : Bool) : PyVal := .scalar (.bool b)

/-- `FieldLookupBackend.SUPPORTED_LOOKUPS`. -/
def SUPPORTED_LOOKUPS : List PyStr :=
  [pys "exact", pys "iexact", pys "contains", pys "icontains", pys "startswith",
   pys "istartswith", pys "endswith", pys "iendswith", pys "regex", pys "iregex",
   pys "gt", pys "gte", pys "lt", pys "lte", pys "in", pys "isnull", pys "search"]

/-- `FieldLookupBackend.NO_DUPLICATES_ALLOW_LIST` as a test on field kinds:
`isinstance(f, (CharField, IntegerField, BooleanField, TextField))`. -/
def noDuplicatesAllowed (f : FieldD) : Bool :=
  match f.kind with
  | .char | .integer | .boolean | .text => true
  | _ => false

/-- `FieldLookupBackend.TREAT_JSONFIELD_AS_TEXT` (class constant, `True`). -/
def TREAT_JSONFIELD_AS_TEXT : Bool := true

/-- Modelled from the spec: the boolean-string parser `to_python_boolean`
from `ansible_base.lib.utils.validation`, which is not under `src/`; the
spec only calls it "a boolean-string parser" for boolean fields and
`__isnull` coercion. -/
def to_python_boolean (value : PyStr) : Except PyStr Bool :=
  let v := pyLower value
  if v = pys "true" ∨ v = pys "1" ∨ v = pys "t" then .ok true
  else if v = pys "false" ∨ v = pys "0" ∨ v = pys "f" then .ok false
  else .error (pys "Unable to convert \x22" ++ value ++ pys "\x22 to a boolean")

/-- `FieldLookupBackend.to_python_related`: `"none"`/`"null"` (case
insensitive) become `None`, everything else must parse as an integer id. -/
def to_python_related (value : PyStr) : Except PyStr PyScalar :=
  if pyLower value = pys "none" ∨ pyLower value = pys "null" then .ok .none
  else (pyInt value).map .int

/-- `field.to_python(value)` for the non-boolean, non-relation kinds: text
kinds and JSON keep the string, integer fields parse it (Django raises a
validation error on failure, surfaced as a parse error by the caller). -/
def field_cast_to_python (f : FieldD) (value : PyStr) : Except PyStr PyScalar :=
  match f.kind with
  | .integer =>
    match pyIntCore value with
    | some n => .ok (.int n)
    | Option.none => .error (pys "\x22" ++ value ++ pys "\x22 value must be an integer.")
  | _ => .ok (.str value)

/-- `FieldLookupBackend.value_to_python_for_field`. -/
def value_to_python_for_field (f : FieldD) (value : PyStr) : Except PyStr PyScalar :=
  match f.kind with
  | .boolean => (to_python_boolean value).map .bool
  | .relation =>
    match to_python_related value with
    | .ok v => .ok v
    | .error _ => .error (pys "Invalid " ++ f.name ++ pys " id: " ++ value)
  | _ => field_cast_to_python f value

/-- The path/suffix split at the head of
`FieldLookupBackend.get_fields_from_lookup`: if `'__' in lookup` and the part
after the last `'__'` is a supported lookup name it is the suffix, otherwise
the whole key is the path and the operator defaults to `exact`. -/
def pathSuffix (lookup : PyStr) : PyStr × PyStr :=
  match rsplitUU lookup with
  | some (path, suffix) =>
    if suffix ∈ SUPPORTED_LOOKUPS then (path, suffix) else (lookup, pys "exact")
  | none => (lookup, pys "exact")

/-- `FieldLookupBackend.get_fields_from_lookup`. -/
def get_fields_from_lookup (m : Model) (lookup : PyStr) :
    Except PyStr (List FieldD × PyStr) :=
  let (path, suffix) := pathSuffix lookup
  if path = [] then .error (pys "Query string field name not provided.")
  else
    match m.resolve path with
    | .error e => .error e
    | .ok (fieldList, newPath) => .ok (fieldList, newPath ++ pys "__" ++ suffix)

/-- The searchable-subfield allow list of the `__search` branch. -/
def SEARCHABLE_FIELDS : List PyStr :=
  [pys "username", pys "first_name", pys "last_name", pys "email",
   pys "name", pys "description", pys "playbook"]

/-- The second component of `value_to_python`'s result: a single rewritten
lookup key, or (for `__search`) the list of related-field lookups. -/
inductive NewKey where
  | one (k : PyStr)
  | many (ks : List PyStr)
  deriving DecidableEq, Repr

/-- The `__in` item loop of `value_to_python`: convert every comma-split
item with the resolved field's converter, propagating the first failure. -/
def convertInItems (field : FieldD) : List PyStr → Except PyStr (List PyScalar)
  | [] => .ok []
  | item :: items =>
    match value_to_python_for_field field item with
    | .error e => .error e
    | .ok v =>
      match convertInItems field items with
      | .error e => .error e
      | .ok vs => .ok (v :: vs)

/-- `FieldLookupBackend.value_to_python`. -/
def value_to_python (m : Model) (lookup : PyStr) (value : PyStr) :
    Except PyStr (PyVal × NewKey × Bool) :=
  if ¬ pyIsAscii lookup then
    .error (lookup ++ pys " is not an allowed field name. Must be ascii encodable.")
  else
  match get_fields_from_lookup m lookup with
  | .error e => .error e
  | .ok (fieldList, newLookup) =>
  match fieldList.getLast? with
  | Option.none => .error (pys "IndexError: list index out of range")
  | some field =>
  let needsDistinct := ! fieldList.all noDuplicatesAllowed
  if pyStartsWith newLookup (pys "polymorphic_ctype__model") then
    .ok (.str (pyReplace (pys "_") [] value), .one newLookup, needsDistinct)
  else if pyEndsWith newLookup (pys "__isnull") then
    (to_python_boolean value).map (fun b => (.bool b, .one newLookup, needsDistinct))
  else if pyEndsWith newLookup (pys "__in") then
    if value = [] then .error (pys "cannot provide empty value for __in")
    else
      match convertInItems field (pySplitComma value) with
      | .error e => .error e
      | .ok items => .ok (.list items, .one newLookup, needsDistinct)
  else if pyEndsWith newLookup (pys "__regex") ∨ pyEndsWith newLookup (pys "__iregex") then
    if m.regexCompiles value then .ok (.str value, .one newLookup, needsDistinct)
    else .error (pys "invalid regular expression: " ++ value)
  else if pyEndsWith newLookup (pys "__iexact") then
    if field.kind = .char ∨ field.kind = .text
        ∨ (field.kind = .json ∧ ¬ TREAT_JSONFIELD_AS_TEXT) then
      .ok (.str value, .one newLookup, needsDistinct)
    else
      .error (field.name ++
        pys " is not a text field and cannot be filtered by case-insensitive search")
  else if pyEndsWith newLookup (pys "__search") then
    match field.relatedFields with
    | Option.none =>
      .error (newLookup.take (newLookup.length - 8) ++ pys " is not searchable")
    | some relFields =>
      let prefixPart := newLookup.take (newLookup.length - 8)
      let newLookups := (relFields.filter (· ∈ SEARCHABLE_FIELDS)).map
        (fun n => prefixPart ++ pys "__" ++ n ++ pys "__icontains")
      .ok (.str value, .many newLookups, needsDistinct)
  else
    let newLookup :=
      if TREAT_JSONFIELD_AS_TEXT ∧ field.kind = .json then
        pyReplace field.name (field.name ++ pys "_as_txt") newLookup
      else newLookup
    (value_to_python_for_field field value).map
      (fun v => (PyVal.scalar v, .one newLookup, needsDistinct))

/-! ## `filter_queryset`: the per-key loop and the final query build -/

/-- Django `Q` objects as the source builds them: keyword leaves
`Q(**{key: value})`, negation `~q`, disjunction `q1 | q2`, the neutral
`Q()`, and the role constraint `Q(pk__in=model.accessible_pk_qs(user,
role_name))` (whose queryset value is opaque here, keyed by the role
name). -/
inductive Q where
  | leaf (key : PyStr) (value : PyVal)
  | qnot (q : Q)
  | qor (a b : Q)
  | empty
  | roleLeaf (role : PyStr)
  deriving DecidableEq, Repr

/-- `~Q(**{k: v})` when negated, `Q(**{k: v})` otherwise. -/
def qOf (negate : Bool) (k : PyStr) (v : PyVal) : Q :=
  if negate then .qnot (.leaf k v) else .leaf k v

/-- The observable shape of the queryset the compiler returns: the
`annotate` aliases added (in order), each `.filter(...)` call with its
argument list (in order), and whether `.distinct()` was applied.  The
model itself is passed separately to every operation. -/
structure QuerySet where
  annotations : List PyStr
  filterCalls : List (List Q)
  isDistinct : Bool
  deriving DecidableEq, Repr

/-- `queryset.filter(*args)`. -/
def QuerySet.filter (qs : QuerySet) (args : List Q) : QuerySet :=
  { qs with filterCalls := qs.filterCalls ++ [args] }

/-- `queryset.annotate(**{fname: Cast(fname[:-7], output_field=TextField())})`. -/
def QuerySet.annotate (qs : QuerySet) (fname : PyStr) : QuerySet :=
  { qs with annotations := qs.annotations ++ [fname] }

/-- The accumulator of `filter_queryset`'s key loop: the four routing lists
(each entry `(negate, field, value)` as in the source), the search dict,
the distinct flag, the search relation (`"OR"` or `"AND"`), and the
queryset being annotated. -/
structure FState where
  andFilters : List (Bool × PyStr × PyVal)
  orFilters : List (Bool × PyStr × PyVal)
  chainFilters : List (Bool × PyStr × PyVal)
  roleFilters : List PyStr
  searchFilters : List (PyStr × List PyStr)
  needsDistinct : Bool
  searchRelation : PyStr
  qs : QuerySet
  deriving DecidableEq, Repr

/-- The initial loop state over a fresh queryset. -/
def initState : FState :=
  { andFilters := [], orFilters := [], chainFilters := [], roleFilters := []
    searchFilters := [], needsDistinct := false, searchRelation := pys "OR"
    qs := { annotations := [], filterCalls := [], isDistinct := false } }

/-- Python dict assignment `d[k] = v`: replaces the value at an existing
key in place, otherwise appends the new entry. -/
def dictInsert (d : List (PyStr × List PyStr)) (k : PyStr) (v : List PyStr) :
    List (PyStr × List PyStr) :=
  if d.any (fun p => p.1 = k) then
    d.map (fun p => if p.1 = k then (k, v) else p)
  else d ++ [(k, v)]

/-- The `chain__` / `or__` / `not__` prefix recognition of
`filter_queryset` (lines 210-225): `chain__` and `or__` are mutually
exclusive (`if`/`elif`), `not__` is stripped afterwards.  Returns the
remaining key and the `q_chain`, `q_or`, `q_not` flags. -/
def stripPrefixes (key : PyStr) : PyStr × Bool × Bool × Bool :=
  let (key, qChain, qOr) :=
    if pyStartsWith key (pys "chain__") then (key.drop 7, true, false)
    else if pyStartsWith key (pys "or__") then (key.drop 4, false, true)
    else (key, false, false)
  if pyStartsWith key (pys "not__") then (key.drop 5, qChain, qOr, true)
  else (key, qChain, qOr, false)

/-- The routing tail of the loop body: the `(q_not, new_key, value)`
triple goes into exactly one of the chain / or / and lists. -/
def routeValue (qChain qOr qNot : Bool) (newKey : PyStr) (v : PyVal)
    (st : FState) : FState :=
  if qChain then { st with chainFilters := st.chainFilters ++ [(qNot, newKey, v)] }
  else if qOr then { st with orFilters := st.orFilters ++ [(qNot, newKey, v)] }
  else { st with andFilters := st.andFilters ++ [(qNot, newKey, v)] }

/-- One iteration of the `for value in values` loop of the non-search
branch: optional `__int` coercion (Python converts the value with `int()`;
the int travelling on is modelled by its decimal rendering), conversion via
`value_to_python`, distinct tracking, the `_as_txt` `Cast` annotation, and
routing into the chain / or / and list. -/
def processValue (m : Model) (key : PyStr) (qInt qChain qOr qNot : Bool)
    (st : FState) (value : PyStr) : Except PyStr FState :=
  match (if qInt then (pyInt value).map (fun n => pys (toString n)) else .ok value) with
  | .error e => .error e
  | .ok value =>
  match value_to_python m key value with
  | .error e => .error e
  | .ok (v, nk, distinct) =>
  match nk with
  | .many _ => .error (pys "TypeError: unhashable type: 'list'")
  | .one newKey =>
  let st := if distinct then { st with needsDistinct := true } else st
  if containsSub (pys "_as_txt") newKey then
    match (pySplitUU newKey).find? (fun item => pyEndsWith item (pys "_as_txt")) with
    | Option.none => .error (pys "StopIteration")
    | some fname =>
      .ok (routeValue qChain qOr qNot newKey v { st with qs := st.qs.annotate fname })
  else .ok (routeValue qChain qOr qNot newKey v st)

/-- One iteration of the `for value in values` loop of the `__search`
branch: convert, assert the list result, and store it in the search dict
keyed by the (string) search value. -/
def processSearchValue (m : Model) (key : PyStr) (st : FState) (value : PyStr) :
    Except PyStr FState :=
  match value_to_python m key value with
  | .error e => .error e
  | .ok (v, nk, _) =>
    match nk with
    | .one _ => .error (pys "AssertionError")
    | .many newKeys =>
      let sv := match v with
        | .scalar (.str s) => s
        | _ => value
      .ok { st with searchFilters := dictInsert st.searchFilters sv newKeys }

/-- The `for value in values` fold with error propagation (the loop body
raising aborts the whole compile). -/
def foldE {α : Type} (f : FState → α → Except PyStr FState) :
    FState → List α → Except PyStr FState
  | st, [] => .ok st
  | st, v :: vs =>
    match f st v with
    | .error e => .error e
    | .ok st2 => foldE f st2 vs

/-- The hard-coded `User` hack: `created*` keys become `date_joined*` when
the queryset's model is named `User` (line 175). -/
def userCreatedKey (m : Model) (key : PyStr) : PyStr :=
  if m.objectName = pys "User" ∧ pyStartsWith key (pys "created") then
    pyReplace (pys "created") (pys "date_joined") key
  else key

/-- The hard-coded `JobEvent` hack, key part: `hosts__name*` keys become
`or__host__name*` when the model is named `JobEvent` (line 182). -/
def jobEventKey (m : Model) (key : PyStr) : PyStr :=
  if m.objectName = pys "JobEvent" ∧ pyStartsWith key (pys "hosts__name") then
    pyReplace (pys "hosts__name") (pys "or__host__name") key
  else key

/-- The hard-coded `JobEvent` hack, state part: the extra
`(False, 'host__name__isnull', True)` OR filter (line 183). -/
def jobEventState (m : Model) (key : PyStr) (st : FState) : FState :=
  if m.objectName = pys "JobEvent" ∧ pyStartsWith key (pys "hosts__name") then
    { st with orFilters :=
        st.orFilters ++ [(false, pys "host__name__isnull", PyVal.bool true)] }
  else st

/-- The internal-only `__int` coercion suffix strip (lines 186-189). -/
def stripInt (key : PyStr) : PyStr × Bool :=
  if pyEndsWith key (pys "__int") then (key.take (key.length - 5), true)
  else (key, false)

/-- The `__search` branch of the key loop (lines 197-208): a comma in the
first value forces the `AND` relation and splits every value; each value
is converted and stored in the search dict; `needs_distinct` is set. -/
def searchBranch (m : Model) (key : PyStr) (values : List PyStr) (st : FState) :
    Except PyStr FState :=
  let rv :=
    match values with
    | [] => (st.searchRelation, values)
    | v0 :: _ =>
      if v0.contains ',' then (pys "AND", (values.map pySplitComma).flatten)
      else (st.searchRelation, values)
  let st := { st with searchRelation := rv.1 }
  match foldE (processSearchValue m key) st rv.2 with
  | .error e => .error e
  | .ok st => .ok { st with needsDistinct := true }

/-- One iteration of the `for key, values in request.query_params.lists()`
loop of `FieldLookupBackend.filter_queryset` (lines 169-242), over one
`(key, values)` pair: reserved names, the hard-coded `User`/`JobEvent` key
rewrites, the `__int` suffix, the `role_level` key, the `__search` branch,
prefix recognition and the per-value conversion loop. -/
def processParam (m : Model) (reserved : List PyStr) (st : FState)
    (kv : PyStr × List PyStr) : Except PyStr FState :=
  let key := kv.1
  let values := kv.2
  if key ∈ reserved then .ok st
  else
  let key := userCreatedKey m key
  let st := jobEventState m key st
  let key := jobEventKey m key
  let ki := stripInt key
  let key := ki.1
  let qInt := ki.2
  if key = pys "role_level" then
    match values with
    | [] => .error (pys "IndexError: list index out of range")
    | v :: _ => .ok { st with roleFilters := st.roleFilters ++ [v] }
  else if pyEndsWith key (pys "__search") then
    searchBranch m key values st
  else
    let kp := stripPrefixes key
    foldE (processValue m kp.1 qInt kp.2.1 kp.2.2.1 kp.2.2.2) st values

/-- The key loop of `filter_queryset` over the whole parameter list. -/
def processParamsFrom (m : Model) (reserved : List PyStr) :
    FState → List (PyStr × List PyStr) → Except PyStr FState
  | st, [] => .ok st
  | st, kv :: kvs =>
    match processParam m reserved st kv with
    | .error e => .error e
    | .ok st2 => processParamsFrom m reserved st2 kvs

/-- The whole key loop of `filter_queryset`, from the initial state. -/
def processParams (m : Model) (reserved : List PyStr)
    (params : List (PyStr × List PyStr)) : Except PyStr FState :=
  processParamsFrom m reserved initState params

/-- The OR-group `q` built by `q = Q(); for ...: q |= Q(**{k: v})`. -/
def orGroup (items : List (Bool × PyStr × PyVal)) : Q :=
  items.foldl (fun q item => .qor q (qOf item.1 item.2.1 item.2.2)) .empty

/-- The OR-group over one search term: `q |= Q(**{constrain: term})` for
each constraint of the term. -/
def searchTermGroup (term : PyStr) (constraints : List PyStr) (q : Q) : Q :=
  constraints.foldl (fun q c => .qor q (.leaf c (PyVal.str term))) q

/-- The `Q`-building tail of `filter_queryset` (lines 244-285): conjoined
`args` from the AND list, the role filters (requiring
`accessible_pk_qs`), the OR group and (in OR relation) the search group;
search terms in AND relation and chain filters become separate
`.filter(...)` calls; `.distinct()` when needed. -/
def buildQuery (m : Model) (st : FState) : Except PyStr QuerySet :=
  if st.andFilters = [] ∧ st.orFilters = [] ∧ st.chainFilters = []
      ∧ st.roleFilters = [] ∧ st.searchFilters = [] then .ok st.qs
  else if st.roleFilters ≠ [] ∧ ¬ m.hasAccessiblePkQs then
    .error (pys "Cannot apply role_level filter to this list because its model does not use roles for access control.")
  else
    let args1 := st.andFilters.map (fun item => qOf item.1 item.2.1 item.2.2)
    let args2 := st.roleFilters.map Q.roleLeaf
    let args3 := if st.orFilters ≠ [] then [orGroup st.orFilters] else []
    let args4 :=
      if st.searchFilters ≠ [] ∧ st.searchRelation = pys "OR" then
        [st.searchFilters.foldl (fun q tc => searchTermGroup tc.1 tc.2 q) .empty]
      else []
    let qs := st.qs
    let qs :=
      if st.searchFilters ≠ [] ∧ st.searchRelation = pys "AND" then
        st.searchFilters.foldl
          (fun qs tc => qs.filter [searchTermGroup tc.1 tc.2 .empty]) qs
      else qs
    let qs := st.chainFilters.foldl
      (fun qs item => qs.filter [qOf item.1 item.2.1 item.2.2]) qs
    let qs := qs.filter (args1 ++ args2 ++ args3 ++ args4)
    .ok (if st.needsDistinct then { qs with isDistinct := true } else qs)

/-- `FieldLookupBackend.filter_queryset` over a fresh queryset of model
`m`: process every query parameter, then build the query.  All
`ValueError` / validation failures are surfaced to the caller as parse
errors carrying the triggering message, exactly as the source's final
`except` clauses do. -/
def filter_queryset (m : Model) (params : List (PyStr × List PyStr))
    (reserved : List PyStr) : Except PyStr QuerySet :=
  match processParams m reserved params with
  | .error e => .error e
  | .ok st => buildQuery m st

/-! ## JWT key resolution and user provisioning

The JWT consumer module `ansible_base/jwt_consumer/common/auth.py` is not
part of `src/` (only its test suite is); the definitions below are
modelled from the spec, sections 4.3 and 4.4. -/

/-- Modelled from the spec: the configuration and environment a single
`resolve` run of the KeyResolutionProtocol (spec section 4.3) sees — whether a
key source is configured, the decryption key the `KeyCache` currently
holds for it (if any), and the result a forced fresh fetch would produce
(`JWTCert.get_decryption_key(ignore_cache=True)` is external; its outcome
is an oracle). -/
structure KeySourceConfig where
  configured : Bool
  cachedKey : Option PyStr
  freshKey : Except PyStr PyStr

/-- The outcome of one key-resolution run: authentication skipped (no key
source configured), success with the key that validated, or failure with
the raised message. -/
inductive ResolveOutcome where
  | skipped
  | success (key : PyStr)
  | failed (msg : PyStr)
  deriving DecidableEq, Repr

/-- An instrumented key-resolution result: the outcome, how many forced
fresh-key fetches were performed, and how many token validations were
attempted. -/
structure ResolveTrace where
  outcome : ResolveOutcome
  freshFetches : Nat
  validationAttempts : Nat
  deriving DecidableEq, Repr

/-- The FAILED message when the first attempt never had a cached key. -/
def msgNotCached : PyStr :=
  pys "JWT decoding failed: key was not cached, check your key and generated token"

/-- The FAILED message when a cached key existed and the fresh key equals it. -/
def msgCachedCorrect : PyStr :=
  pys "JWT decoding failed: cached key was correct, but new key also failed - check your key and generated token"

/-- The FAILED message when a differing fresh key also failed validation. -/
def msgFreshFailed : PyStr :=
  pys "JWT decoding failed: check your key and generated token"

/-- The failure message when fetching the key itself errors. -/
def msgCertError (e : PyStr) : PyStr := pys "Failed to get the decryption key: " ++ e

/-- Modelled from the spec: the KeyResolutionProtocol state machine of spec
section 4.3 (`JWTCommonAuth.parse_jwt_token`'s key handling, whose source is not
under `src/`).  `validate` is the TokenValidator applied to the incoming
token with a candidate key (`true` = the token validates).  If no source
is configured, authentication is skipped.  TRY_CACHED: a cached key is
validated first.  On cache miss or cached-key failure, TRY_FRESH: one
forced fresh fetch; a fresh key equal to the failing cached key fails
immediately with the "cached key was correct" message; a differing fresh
key is retried exactly once.  Fetch errors become failures. -/
def resolveKey (cfg : KeySourceConfig) (validate : PyStr → Bool) : ResolveTrace :=
  if ¬ cfg.configured then
    { outcome := .skipped, freshFetches := 0, validationAttempts := 0 }
  else
    match cfg.cachedKey with
    | some k =>
      if validate k then
        { outcome := .success k, freshFetches := 0, validationAttempts := 1 }
      else
        match cfg.freshKey with
        | .error e =>
          { outcome := .failed (msgCertError e), freshFetches := 1, validationAttempts := 1 }
        | .ok k' =>
          if k' = k then
            { outcome := .failed msgCachedCorrect, freshFetches := 1, validationAttempts := 1 }
          else if validate k' then
            { outcome := .success k', freshFetches := 1, validationAttempts := 2 }
          else
            { outcome := .failed msgFreshFailed, freshFetches := 1, validationAttempts := 2 }
    | none =>
      match cfg.freshKey with
      | .error e =>
        { outcome := .failed (msgCertError e), freshFetches := 1, validationAttempts := 0 }
      | .ok k' =>
        if validate k' then
          { outcome := .success k', freshFetches := 1, validationAttempts := 1 }
        else
          { outcome := .failed msgNotCached, freshFetches := 1, validationAttempts := 1 }

/-- Modelled from the spec: a user record (spec section 3, Principal) as the
field map visible to `map_user_fields`, instrumented with the number of
`user.save()` calls performed. -/
structure UserRec where
  fields : List (PyStr × PyStr)
  saveCount : Nat
  deriving DecidableEq, Repr

/-- Field access `getattr(user, a, None)` / `claims.get(a)` on a field map. -/
def lookupField (fs : List (PyStr × PyStr)) (a : PyStr) : Option PyStr :=
  (fs.find? (fun p => p.1 = a)).map (fun p => p.2)

/-- Whether some configured mapped field present in both the user and the
claims differs between them. -/
def mappedFieldDiffers (mapped : List PyStr) (user : List (PyStr × PyStr))
    (claims : List (PyStr × PyStr)) : Bool :=
  mapped.any (fun a =>
    match lookupField user a, lookupField claims a with
    | some u, some c => decide (u ≠ c)
    | _, _ => false)

/-- Modelled from the spec: `JWTCommonAuth.map_user_fields` (spec section 4.4,
UserProvisioner; the auth module is not under `src/`): for each field of
the configured mapped-field list present in both principal and claims,
compare; if any differs, update all mapped fields from the claims and
persist exactly once; otherwise make no persistence call. -/
def map_user_fields (mapped : List PyStr) (user : UserRec)
    (claims : List (PyStr × PyStr)) : UserRec :=
  if mappedFieldDiffers mapped user.fields claims then
    { fields := user.fields.map (fun p =>
        if p.1 ∈ mapped then
          match lookupField claims p.1 with
          | some c => (p.1, c)
          | none => p
        else p)
      saveCount := user.saveCount + 1 }
  else user

/-! ## Lemmas about the string primitives -/

theorem pyStartsWith_iff {s pre : PyStr} :
    pyStartsWith s pre = true ↔ s.take pre.length = pre := by
  simp [pyStartsWith]

theorem pyEndsWith_iff {s suf : PyStr} :
    pyEndsWith s suf = true ↔ s.drop (s.length - suf.length) = suf := by
  simp [pyEndsWith]

theorem pyEndsWith_iff_suffix {s suf : PyStr} :
    pyEndsWith s suf = true ↔ suf <:+ s := by
  rw [pyEndsWith_iff, List.suffix_iff_eq_drop, eq_comm]

theorem pyStartsWith_append (pre rest : PyStr) :
    pyStartsWith (pre ++ rest) pre = true := by
  simp [pyStartsWith, List.take_left]

theorem pyStartsWith_append_of_le {a pre : PyStr} (b : PyStr) (h : pre.length ≤ a.length) :
    pyStartsWith (a ++ b) pre = pyStartsWith a pre := by
  simp [pyStartsWith, List.take_append_of_le_length h]

theorem pyEndsWith_append {b suf : PyStr} (a : PyStr) (h : suf.length ≤ b.length) :
    pyEndsWith (a ++ b) suf = pyEndsWith b suf := by
  have h2 : a.length + b.length - suf.length = a.length + (b.length - suf.length) := by omega
  simp [pyEndsWith, List.length_append, h2, List.drop_append]

theorem pyEndsWith_rev {a b suf : PyStr} (h : pyEndsWith (a ++ b) suf = true)
    (hlen : b.length ≤ suf.length) : pyEndsWith suf b = true := by
  rw [pyEndsWith_iff_suffix] at h ⊢
  exact List.suffix_of_suffix_length_le (List.suffix_append a b) h hlen

theorem pyStartsWith_take {s pre : PyStr} (h : pyStartsWith s pre = true) :
    s.take pre.length = pre := pyStartsWith_iff.mp h

theorem pyStartsWith_decomp {s pre : PyStr} (h : pyStartsWith s pre = true) :
    s = pre ++ s.drop pre.length := by
  conv_lhs => rw [← List.take_append_drop pre.length s]
  rw [pyStartsWith_take h]

theorem take_head {s rest : PyStr} {n : Nat} {c : Char}
    (h : s.take (n + 1) = c :: rest) : s.head? = some c := by
  cases s with
  | nil => simp at h
  | cons a t =>
    simp only [List.take_succ_cons] at h
    cases h
    rfl

theorem rsplitUU_ne_nil {k : PyStr} {ab : PyStr × PyStr} (h : rsplitUU k = some ab) :
    k ≠ [] := by
  intro hk; subst hk; simp [rsplitUU] at h

theorem rsplitUU_append {t a b : PyStr} (p : PyStr) (h : rsplitUU t = some (a, b)) :
    rsplitUU (p ++ t) = some (p ++ a, b) := by
  induction p with
  | nil => simpa using h
  | cons c p ih =>
    have hne : p ++ t ≠ [] := by
      intro hc
      rcases List.append_eq_nil.mp hc with ⟨-, ht⟩
      exact rsplitUU_ne_nil h ht
    rcases hdt : p ++ t with _ | ⟨d, tail⟩
    · exact absurd hdt hne
    · rw [hdt] at ih
      show rsplitUU (c :: (p ++ t)) = _
      rw [hdt, rsplitUU, ih]
      simp [← hdt]

theorem rsplitUU_eq_some_nil {k b : PyStr} (h : rsplitUU k = some ([], b)) :
    k = '_' :: '_' :: b := by
  match k with
  | [] => simp [rsplitUU] at h
  | [c] => simp [rsplitUU] at h
  | c :: d :: tail =>
    rw [rsplitUU] at h
    rcases hr : rsplitUU (d :: tail) with _ | ⟨a2, b2⟩ <;> rw [hr] at h
    · by_cases hcd : c = '_' ∧ d = '_'
      · rw [if_pos hcd] at h
        obtain ⟨hc, hd⟩ := hcd
        subst hc; subst hd
        simp only [Option.some.injEq, Prod.mk.injEq] at h
        rw [h.2]
      · rw [if_neg hcd] at h
        cases h
    · simp at h

theorem pathSuffix_append_search (p : PyStr) :
    pathSuffix (p ++ pys "__search") = (p, pys "search") := by
  have h2 : rsplitUU (p ++ pys "__search") = some (p ++ [], pys "search") :=
    rsplitUU_append p (by decide)
  simp only [List.append_nil] at h2
  simp only [pathSuffix, h2]
  rw [if_pos (show pys "search" ∈ SUPPORTED_LOOKUPS by decide)]

theorem pathSuffix_path_nil {k : PyStr} (h : (pathSuffix k).1 = []) :
    k = [] ∨ ∃ s, s ∈ SUPPORTED_LOOKUPS ∧ k = '_' :: '_' :: s ∧ pathSuffix k = ([], s) := by
  rcases hr : rsplitUU k with _ | ⟨a, b⟩
  · simp only [pathSuffix, hr] at h
    exact Or.inl h
  · simp only [pathSuffix, hr] at h
    by_cases hb : b ∈ SUPPORTED_LOOKUPS
    · rw [if_pos hb] at h
      simp only at h
      subst h
      refine Or.inr ⟨b, hb, rsplitUU_eq_some_nil hr, ?_⟩
      simp only [pathSuffix, hr]
      rw [if_pos hb]
    · rw [if_neg hb] at h
      exact Or.inl h

/-! ## Concrete fixtures used by witnesses and counterexamples -/

/-- A concrete schema oracle: a text field `name`, an integer `count`, a
searchable relation `related` (related model fields `id`, `name`, `email`),
paths used by the prefix and rewrite tests, and the polymorphic type path. -/
def fixResolve : PyStr → Except PyStr (List FieldD × PyStr) := fun path =>
  if path = pys "name" then .ok ([{ name := pys "name", kind := .char }], pys "name")
  else if path = pys "count" then
    .ok ([{ name := pys "count", kind := .integer }], pys "count")
  else if path = pys "related" then
    .ok ([{ name := pys "related", kind := .relation,
            relatedFields := some [pys "id", pys "name", pys "email"] }], pys "related")
  else if path = pys "chain__x" then
    .ok ([{ name := pys "x", kind := .char }], pys "chain__x")
  else if path = pys "x" then .ok ([{ name := pys "x", kind := .char }], pys "x")
  else if path = pys "created" then
    .ok ([{ name := pys "created", kind := .generic }], pys "created")
  else if path = pys "date_joined" then
    .ok ([{ name := pys "date_joined", kind := .generic }], pys "date_joined")
  else if path = pys "polymorphic_ctype__model" then
    .ok ([{ name := pys "polymorphic_ctype", kind := .relation },
          { name := pys "model", kind := .char }], pys "polymorphic_ctype__model")
  else .error (pys "no field " ++ path)

/-- A model named `Widget` over the fixture schema, without role access. -/
def widgetModel : Model :=
  { objectName := pys "Widget", resolve := fixResolve, hasAccessiblePkQs := false,
    regexCompiles := fun _ => true }

/-- The same schema with the role-access capability. -/
def widgetModelWithRoles : Model := { widgetModel with hasAccessiblePkQs := true }

/-- The same schema under the object name `User` (triggering the hard-coded
`created` rewrite). -/
def userModel : Model := { widgetModel with objectName := pys "User" }

/-! ## Claim theorems -/

/-- C1: for every request whose bearer token fails validation with the
cached decryption key and also fails with the freshly fetched key,
authentication raises a failure after exactly one fresh-key retry, and the
failure message distinguishes the two cases: without a cached key the
message says "check your key and generated token" and does not mention
"cached key was correct"; with a cached key equal to the fresh key the
message contains "cached key was correct". -/
theorem claim_C1_retry_failure_messages (cfg : KeySourceConfig)
    (validate : PyStr → Bool) (hconf : cfg.configured = true) :
    (cfg.cachedKey = Option.none → ∀ k, cfg.freshKey = .ok k → validate k = false →
      (resolveKey cfg validate).outcome = .failed msgNotCached ∧
      containsSub (pys "check your key and generated token") msgNotCached = true ∧
      containsSub (pys "cached key was correct") msgNotCached = false ∧
      (resolveKey cfg validate).freshFetches = 1) ∧
    (∀ k, cfg.cachedKey = some k → validate k = false → cfg.freshKey = .ok k →
      (resolveKey cfg validate).outcome = .failed msgCachedCorrect ∧
      containsSub (pys "cached key was correct") msgCachedCorrect = true ∧
      containsSub (pys "check your key and generated token") msgCachedCorrect = true ∧
      (resolveKey cfg validate).freshFetches = 1) := by
  obtain ⟨conf, cached, fresh⟩ := cfg
  simp only at hconf
  subst hconf
  constructor
  · intro hnone k hfresh hval
    simp only at hnone hfresh
    subst hnone; subst hfresh
    refine ⟨?_, by decide, by decide, ?_⟩ <;> simp [resolveKey, hval]
  · intro k hcache hval hfresh
    simp only at hcache hfresh
    subst hcache; subst hfresh
    refine ⟨?_, by decide, by decide, ?_⟩ <;> simp [resolveKey, hval]

/-- Witness for C1 at concrete inputs: an uncached failing key and a
cached failing key whose fresh refetch returns the same key. -/
theorem claim_C1_retry_failure_messages_witness :
    (resolveKey { configured := true, cachedKey := Option.none, freshKey := .ok (pys "K") }
        (fun _ => false)).outcome = .failed msgNotCached ∧
    (resolveKey { configured := true, cachedKey := some (pys "K"), freshKey := .ok (pys "K") }
        (fun _ => false)).outcome = .failed msgCachedCorrect :=
  ⟨((claim_C1_retry_failure_messages _ _ rfl).1 rfl (pys "K") rfl rfl).1,
   ((claim_C1_retry_failure_messages _ _ rfl).2 (pys "K") rfl rfl rfl).1⟩

theorem lookupField_cons_eq {p : PyStr × PyStr} {fs : List (PyStr × PyStr)}
    {a : PyStr} (h : p.1 = a) : lookupField (p :: fs) a = some p.2 := by
  simp [lookupField, List.find?_cons, h]

theorem lookupField_cons_ne {p : PyStr × PyStr} {fs : List (PyStr × PyStr)}
    {a : PyStr} (h : p.1 ≠ a) : lookupField (p :: fs) a = lookupField fs a := by
  simp [lookupField, List.find?_cons, h]

theorem lookupField_map_update {mapped : List PyStr} {claims : List (PyStr × PyStr)}
    {a c : PyStr} (fs : List (PyStr × PyStr)) (ha : a ∈ mapped)
    (hc : lookupField claims a = some c) (hu : (lookupField fs a).isSome) :
    lookupField (fs.map (fun p =>
      if p.1 ∈ mapped then
        match lookupField claims p.1 with
        | some c2 => (p.1, c2)
        | Option.none => p
      else p)) a = some c := by
  induction fs with
  | nil => simp [lookupField] at hu
  | cons p fs ih =>
    have h2 : (if p.1 ∈ mapped then
          match lookupField claims p.1 with
          | some c2 => (p.1, c2)
          | Option.none => p
        else p).1 = p.1 := by
      split
      · split <;> rfl
      · rfl
    by_cases hk : p.1 = a
    · have hupd : (if p.1 ∈ mapped then
          match lookupField claims p.1 with
          | some c2 => (p.1, c2)
          | Option.none => p
        else p) = (p.1, c) := by
        rw [if_pos (show p.1 ∈ mapped by rw [hk]; exact ha), hk, hc]
      simp only [List.map_cons]
      rw [hupd]
      exact lookupField_cons_eq hk
    · have hne : (if p.1 ∈ mapped then
          match lookupField claims p.1 with
          | some c2 => (p.1, c2)
          | Option.none => p
        else p).1 ≠ a := by rw [h2]; exact hk
      simp only [List.map_cons]
      rw [lookupField_cons_ne hne]
      have hu2 : (lookupField fs a).isSome := by
        rwa [lookupField_cons_ne hk] at hu
      exact ih hu2

/-- C7: for every user record and validated claim set, `map_user_fields`
persists the user exactly once when at least one configured mapped field
present in both differs from the claim value, after which every mapped
field (present in both) equals the corresponding claim value; when all
mapped fields already match, no persistence call is made and the record is
unchanged. -/
theorem claim_C7_map_user_fields_idempotent (mapped : List PyStr) (user : UserRec)
    (claims : List (PyStr × PyStr)) :
    (mappedFieldDiffers mapped user.fields claims = false →
      map_user_fields mapped user claims = user) ∧
    (mappedFieldDiffers mapped user.fields claims = true →
      (map_user_fields mapped user claims).saveCount = user.saveCount + 1 ∧
      ∀ a ∈ mapped, ∀ c, lookupField claims a = some c →
        (lookupField user.fields a).isSome →
        lookupField (map_user_fields mapped user claims).fields a = some c) := by
  constructor
  · intro h
    simp [map_user_fields, h]
  · intro h
    constructor
    · simp [map_user_fields, h]
    · intro a ha c hc hu
      simp only [map_user_fields, h, if_true]
      exact lookupField_map_update user.fields ha hc hu

/-- Witness for C7: a user whose `first_name` differs from the claims is
saved once and updated; the matching user is returned unchanged. -/
theorem claim_C7_map_user_fields_idempotent_witness :
    (map_user_fields [pys "first_name", pys "last_name"]
        { fields := [(pys "first_name", pys "Billy"), (pys "last_name", pys "Lou")],
          saveCount := 0 }
        [(pys "first_name", pys "Cindy"), (pys "last_name", pys "Lou")]).saveCount = 0 + 1 ∧
    lookupField (map_user_fields [pys "first_name", pys "last_name"]
        { fields := [(pys "first_name", pys "Billy"), (pys "last_name", pys "Lou")],
          saveCount := 0 }
        [(pys "first_name", pys "Cindy"), (pys "last_name", pys "Lou")]).fields
        (pys "first_name") = some (pys "Cindy") ∧
    map_user_fields [pys "first_name", pys "last_name"]
        { fields := [(pys "first_name", pys "Cindy"), (pys "last_name", pys "Lou")],
          saveCount := 0 }
        [(pys "first_name", pys "Cindy"), (pys "last_name", pys "Lou")] =
      { fields := [(pys "first_name", pys "Cindy"), (pys "last_name", pys "Lou")],
        saveCount := 0 } := by
  refine ⟨((claim_C7_map_user_fields_idempotent _ _ _).2 (by decide)).1,
    ((claim_C7_map_user_fields_idempotent _ _ _).2 (by decide)).2 (pys "first_name")
      (by decide) (pys "Cindy") (by decide) (by decide),
    (claim_C7_map_user_fields_idempotent _ _ _).1 (by decide)⟩

/-- C6: for every lookup key whose last `__`-separated segment is not a
supported lookup name, the entire key is the field path and the operator
defaults to `exact` (so `get_fields_from_lookup` resolves the whole key);
and only the final segment is ever interpreted as an operator. -/
theorem claim_C6_unsupported_suffix_is_path (lookup : PyStr) :
    ((∀ a b, rsplitUU lookup = some (a, b) → b ∉ SUPPORTED_LOOKUPS) →
      pathSuffix lookup = (lookup, pys "exact") ∧
      ∀ (m : Model) (fl : List FieldD) (np : PyStr), lookup ≠ [] →
        m.resolve lookup = .ok (fl, np) →
        get_fields_from_lookup m lookup = .ok (fl, np ++ pys "__exact")) ∧
    (pathSuffix lookup = (lookup, pys "exact") ∨
      (rsplitUU lookup = some ((pathSuffix lookup).1, (pathSuffix lookup).2) ∧
        (pathSuffix lookup).2 ∈ SUPPORTED_LOOKUPS)) := by
  constructor
  · intro h
    have hps : pathSuffix lookup = (lookup, pys "exact") := by
      rcases hr : rsplitUU lookup with _ | ⟨a, b⟩
      · simp [pathSuffix, hr]
      · simp only [pathSuffix, hr]
        rw [if_neg (h a b hr)]
    refine ⟨hps, ?_⟩
    intro m fl np hne hres
    simp only [get_fields_from_lookup, hps]
    rw [if_neg hne, hres]
    show Except.ok (fl, np ++ pys "__" ++ pys "exact") = _
    have h3 : pys "__" ++ pys "exact" = pys "__exact" := by decide
    rw [List.append_assoc, h3]
  · rcases hr : rsplitUU lookup with _ | ⟨a, b⟩
    · simp [pathSuffix, hr]
    · by_cases hb : b ∈ SUPPORTED_LOOKUPS
      · right
        have hps : pathSuffix lookup = (a, b) := by
          simp only [pathSuffix, hr]
          rw [if_pos hb]
        rw [hps]
        exact ⟨rfl, hb⟩
      · left
        simp only [pathSuffix, hr]
        rw [if_neg hb]

/-- Witness for C6 at the key `name__foo` (an unsupported suffix) over a
one-field schema. -/
theorem claim_C6_unsupported_suffix_is_path_witness :
    pathSuffix (pys "name__foo") = (pys "name__foo", pys "exact") ∧
    get_fields_from_lookup
        { objectName := pys "Widget",
          resolve := fun path =>
            if path = pys "name__foo" then
              .ok ([{ name := pys "name__foo", kind := .char }], pys "name__foo")
            else .error (pys "no field"),
          hasAccessiblePkQs := false, regexCompiles := fun _ => true }
        (pys "name__foo") =
      .ok ([{ name := pys "name__foo", kind := .char }], pys "name__foo" ++ pys "__exact") := by
  have h : ∀ a b, rsplitUU (pys "name__foo") = some (a, b) → b ∉ SUPPORTED_LOOKUPS := by
    intro a b hab
    have h0 : rsplitUU (pys "name__foo") = some (pys "name", pys "foo") := by decide
    rw [h0] at hab
    obtain ⟨h1, h2⟩ := Prod.mk.injEq .. ▸ Option.some.inj hab
    rw [← h2]
    decide
  exact ⟨((claim_C6_unsupported_suffix_is_path (pys "name__foo")).1 h).1,
    ((claim_C6_unsupported_suffix_is_path (pys "name__foo")).1 h).2 _ _ _
      (by decide) (by decide)⟩

theorem pyReplaceFuel_underscore (fuel : Nat) :
    ∀ v : PyStr, v.length ≤ fuel →
      pyReplaceFuel (pys "_") [] fuel v = v.filter (fun c => decide (c ≠ '_')) := by
  induction fuel with
  | zero =>
    intro v hv
    rw [Nat.le_zero, List.length_eq_zero] at hv
    subst hv
    rfl
  | succ fuel ih =>
    intro v hv
    match v with
    | [] => rfl
    | c :: rest =>
      have hrest : rest.length ≤ fuel := by
        simpa using Nat.le_of_succ_le_succ hv
      by_cases hc : c = '_'
      · subst hc
        rw [pyReplaceFuel, if_pos ⟨by decide, rfl⟩]
        simp only [List.nil_append]
        rw [show (('_' :: rest).drop (pys "_").length) = rest from rfl, ih rest hrest]
        simp
      · rw [pyReplaceFuel, if_neg (fun hp => hc (List.cons.injEq .. ▸ hp.2).1)]
        rw [ih rest hrest]
        simp [hc]

/-- `value.replace('_', '')` removes exactly the underscore characters. -/
theorem pyReplace_underscore (v : PyStr) :
    pyReplace (pys "_") [] v = v.filter (fun c => decide (c ≠ '_')) :=
  pyReplaceFuel_underscore v.length v le_rfl

/-- C10: for every lookup whose resolved path starts with
`polymorphic_ctype__model`, all underscores are removed from the filter
value (whatever the suffix); and for a resolved path not starting with it,
on a text (char) field in the generic branch the value is passed through
verbatim - the underscore normalization applies to no other lookup path. -/
theorem claim_C10_polymorphic_ctype_underscore_strip (m : Model)
    (lookup value : PyStr) (fl : List FieldD) (nl : PyStr) (fld : FieldD)
    (hasc : pyIsAscii lookup = true)
    (hres : get_fields_from_lookup m lookup = .ok (fl, nl))
    (hlast : fl.getLast? = some fld) :
    (pyStartsWith nl (pys "polymorphic_ctype__model") = true →
      value_to_python m lookup value =
        .ok (.str (value.filter (fun c => decide (c ≠ '_'))), .one nl,
          ! fl.all noDuplicatesAllowed)) ∧
    (pyStartsWith nl (pys "polymorphic_ctype__model") = false →
      fld.kind = .char →
      pyEndsWith nl (pys "__isnull") = false →
      pyEndsWith nl (pys "__in") = false →
      pyEndsWith nl (pys "__regex") = false →
      pyEndsWith nl (pys "__iregex") = false →
      pyEndsWith nl (pys "__iexact") = false →
      pyEndsWith nl (pys "__search") = false →
      value_to_python m lookup value =
        .ok (.str value, .one nl, ! fl.all noDuplicatesAllowed)) := by
  constructor
  · intro hpoly
    simp only [value_to_python, hasc, hres, hlast, hpoly, not_true, Bool.true_eq_false,
      if_false, if_true, pyReplace_underscore]
  · intro hpoly hkind h1 h2 h3 h4 h5 h6
    simp only [value_to_python, hasc, hres, hlast, hpoly, h1, h2, h3, h4, h5, h6,
      not_true, Bool.false_eq_true, if_false, or_self,
      value_to_python_for_field, field_cast_to_python, hkind]
    simp [TREAT_JSONFIELD_AS_TEXT, hkind]
    rfl

/-- Witness for C10: `polymorphic_ctype__model` with value `my_type` loses
its underscore; the `name` lookup keeps value `a_b` verbatim. -/
theorem claim_C10_polymorphic_ctype_underscore_strip_witness :
    value_to_python widgetModel (pys "polymorphic_ctype__model") (pys "my_type") =
      .ok (.str (pys "mytype"), .one (pys "polymorphic_ctype__model__exact"), true) ∧
    value_to_python widgetModel (pys "name") (pys "a_b") =
      .ok (.str (pys "a_b"), .one (pys "name__exact"), false) := by
  constructor
  · exact ((claim_C10_polymorphic_ctype_underscore_strip widgetModel
      (pys "polymorphic_ctype__model") (pys "my_type")
      [{ name := pys "polymorphic_ctype", kind := .relation },
       { name := pys "model", kind := .char }]
      (pys "polymorphic_ctype__model__exact")
      { name := pys "model", kind := .char }
      (by decide) (by decide) (by decide)).1 (by decide)).trans (by decide)
  · exact ((claim_C10_polymorphic_ctype_underscore_strip widgetModel
      (pys "name") (pys "a_b")
      [{ name := pys "name", kind := .char }] (pys "name__exact")
      { name := pys "name", kind := .char }
      (by decide) (by decide) (by decide)).2 (by decide) rfl (by decide) (by decide)
      (by decide) (by decide) (by decide) (by decide)).trans (by decide)

/-- Counterexample to C2 as stated: with values `["a", "b,c"]` for
`related__search`, the second value contains a comma, yet the combination
stays `OR` (one disjunction over both unsplit terms, `"b,c"` not split):
only the first value is tested for a comma. -/
theorem claim_C2_counterexample :
    filter_queryset widgetModel [(pys "related__search", [pys "a", pys "b,c"])] [] =
      .ok { annotations := []
            filterCalls := [[Q.qor (Q.qor (Q.qor (Q.qor Q.empty
              (Q.leaf (pys "related__name__icontains") (PyVal.str (pys "a"))))
              (Q.leaf (pys "related__email__icontains") (PyVal.str (pys "a"))))
              (Q.leaf (pys "related__name__icontains") (PyVal.str (pys "b,c"))))
              (Q.leaf (pys "related__email__icontains") (PyVal.str (pys "b,c")))]]
            isDistinct := true } := by
  decide

/-- Counterexample to C3 as stated: for the key `not__chain__x` (with
`not__` written first) the `chain__` prefix is not recognized; the filter
is routed to the AND list with the literal path `chain__x`, and the chain
list stays empty. -/
theorem claim_C3_counterexample :
    filter_queryset widgetModel [(pys "not__chain__x", [pys "v"])] [] =
      .ok { annotations := []
            filterCalls := [[Q.qnot (Q.leaf (pys "chain__x__exact") (PyVal.str (pys "v")))]]
            isDistinct := false } := by
  decide

/-- Counterexample to C4 as stated: with two `role_level` values only the
first becomes a role constraint; `"read"` is dropped. -/
theorem claim_C4_counterexample :
    filter_queryset widgetModelWithRoles
        [(pys "role_level", [pys "admin", pys "read"])] [] =
      .ok { annotations := []
            filterCalls := [[Q.roleLeaf (pys "admin")]]
            isDistinct := false } := by
  decide

/-- Counterexample to C5 as stated: `polymorphic_ctype__model__in` with the
empty value does not raise - the polymorphic underscore-normalization
branch precedes the `__in` handling, so compilation succeeds with the
(unsplit, non-list) empty string value. -/
theorem claim_C5_counterexample :
    filter_queryset widgetModel [(pys "polymorphic_ctype__model__in", [pys ""])] [] =
      .ok { annotations := []
            filterCalls := [[Q.leaf (pys "polymorphic_ctype__model__in") (PyVal.str (pys ""))]]
            isDistinct := true } := by
  decide

/-- Counterexample to C8 as stated: two models over the identical schema
(`fixResolve`) and identical capabilities, differing only in the object
name (`User` vs `Widget`), compile the same parameter set to different
filter trees (the hard-coded `created` -> `date_joined` rewrite fires only
for `User`). -/
theorem claim_C8_counterexample :
    filter_queryset userModel [(pys "created", [pys "5"])] [] ≠
      filter_queryset widgetModel [(pys "created", [pys "5"])] [] ∧
    userModel.resolve = widgetModel.resolve ∧
    userModel.hasAccessiblePkQs = widgetModel.hasAccessiblePkQs := by
  refine ⟨by decide, rfl, rfl⟩

/-- Counterexample to C9 as stated: the key `not____search` reduces to an
empty field path after prefix stripping and operator-suffix splitting, yet
compilation attempts field resolution of `not__` (the search branch runs
before prefix stripping) and surfaces the resolver's error, not the
`Query string field name not provided.` message. -/
theorem claim_C9_counterexample :
    filter_queryset widgetModel [(pys "not____search", [pys "x"])] [] =
      .error (pys "no field " ++ pys "not__") ∧
    filter_queryset widgetModel [(pys "not____search", [pys "x"])] [] ≠
      .error (pys "Query string field name not provided.") := by
  refine ⟨by decide, by decide⟩

/-- C5 (amended): for every `__in` filter whose resolved lookup does not
start with `polymorphic_ctype__model` (that branch precedes and bypasses
the `__in` handling, see the counterexample), an empty value string is a
hard parse failure, and every non-empty value is split on commas with each
item converted by the resolved field's converter; concretely `count__in`
with `"1,2,3"` on an integer field compiles to the list value `[1, 2, 3]`. -/
theorem claim_C5_amended_empty_and_split_in (m : Model) (lookup : PyStr)
    (fl : List FieldD) (nl : PyStr) (fld : FieldD)
    (hasc : pyIsAscii lookup = true)
    (hres : get_fields_from_lookup m lookup = .ok (fl, nl))
    (hlast : fl.getLast? = some fld)
    (hpoly : pyStartsWith nl (pys "polymorphic_ctype__model") = false)
    (hisnull : pyEndsWith nl (pys "__isnull") = false)
    (hin : pyEndsWith nl (pys "__in") = true) :
    value_to_python m lookup [] = .error (pys "cannot provide empty value for __in") ∧
    (∀ value : PyStr, value ≠ [] →
      value_to_python m lookup value =
        match convertInItems fld (pySplitComma value) with
        | .error e => .error e
        | .ok items => .ok (.list items, .one nl, ! fl.all noDuplicatesAllowed)) ∧
    filter_queryset widgetModel [(pys "count__in", [pys "1,2,3"])] [] =
      .ok { annotations := []
            filterCalls := [[Q.leaf (pys "count__in") (PyVal.list [.int 1, .int 2, .int 3])]]
            isDistinct := false } := by
  refine ⟨?_, ?_, by decide⟩
  · simp only [value_to_python, hasc, hres, hlast, hpoly, hisnull, hin, not_true,
      Bool.false_eq_true, if_false, if_true]
  · intro value hv
    simp only [value_to_python, hasc, hres, hlast, hpoly, hisnull, hin, not_true,
      Bool.false_eq_true, if_false, if_true]
    rw [if_neg hv]

/-- Witness for C5 (amended) at `count__in` over the fixture schema. -/
theorem claim_C5_amended_empty_and_split_in_witness :
    value_to_python widgetModel (pys "count__in") [] =
      .error (pys "cannot provide empty value for __in") ∧
    value_to_python widgetModel (pys "count__in") (pys "1,2,3") =
      .ok (.list [.int 1, .int 2, .int 3], .one (pys "count__in"), false) := by
  have h := claim_C5_amended_empty_and_split_in widgetModel (pys "count__in")
    [{ name := pys "count", kind := .integer }] (pys "count__in")
    { name := pys "count", kind := .integer }
    (by decide) (by decide) (by decide) (by decide) (by decide) (by decide)
  exact ⟨h.1, (h.2.1 (pys "1,2,3") (by decide)).trans (by decide)⟩

theorem pyStartsWith_lit_false (lit pre rest : PyStr)
    (hlen : pre.length ≤ lit.length) (h : pyStartsWith lit pre = false) :
    pyStartsWith (lit ++ rest) pre = false := by
  rw [pyStartsWith_append_of_le rest hlen]
  exact h

theorem pyStartsWith_false_of_head {s pre : PyStr} (hpre : pre ≠ [])
    (h : s.head? ≠ pre.head?) : pyStartsWith s pre = false := by
  cases hsw : pyStartsWith s pre
  · rfl
  · exfalso
    have ht := pyStartsWith_take hsw
    rcases pre with _ | ⟨p0, pr⟩
    · exact hpre rfl
    · exact h (take_head ht)

/-- The outcome of one non-search loop iteration on a key that converts
cleanly (no `__int`, no `_as_txt` cast): distinct tracking plus routing. -/
theorem processValue_ok (m : Model) (p v nk : PyStr) (pv : PyVal) (dist : Bool)
    (st : FState) (qChain qOr qNot : Bool)
    (hvtp : value_to_python m p v = .ok (pv, .one nk, dist))
    (htxt : containsSub (pys "_as_txt") nk = false) :
    processValue m p false qChain qOr qNot st v =
      .ok (
        let st2 := if dist then { st with needsDistinct := true } else st
        if qChain then { st2 with chainFilters := st2.chainFilters ++ [(qNot, nk, pv)] }
        else if qOr then { st2 with orFilters := st2.orFilters ++ [(qNot, nk, pv)] }
        else { st2 with andFilters := st2.andFilters ++ [(qNot, nk, pv)] }) := by
  rw [processValue]
  simp only [Bool.false_eq_true, if_false, hvtp, htxt]
  cases dist <;> cases qChain <;> cases qOr <;> simp [routeValue]

theorem foldE_singleton_ok {α : Type} {f : FState → α → Except PyStr FState}
    {st st2 : FState} {v : α} (h : f st v = .ok st2) : foldE f st [v] = .ok st2 := by
  simp only [foldE, h]

theorem userCreatedKey_skip {m : Model} {key : PyStr}
    (h : pyStartsWith key (pys "created") = false) : userCreatedKey m key = key := by
  simp [userCreatedKey, h]

theorem jobEventKey_skip {m : Model} {key : PyStr}
    (h : pyStartsWith key (pys "hosts__name") = false) : jobEventKey m key = key := by
  simp [jobEventKey, h]

theorem jobEventState_skip {m : Model} {key : PyStr} {st : FState}
    (h : pyStartsWith key (pys "hosts__name") = false) : jobEventState m key st = st := by
  simp [jobEventState, h]

theorem stripInt_skip {key : PyStr} (h : pyEndsWith key (pys "__int") = false) :
    stripInt key = (key, false) := by
  simp [stripInt, h]

set_option maxHeartbeats 1000000 in
/-- C3 (amended): the prefix order the compiler recognizes is
`chain__not__x` / `or__not__x` (`chain__`/`or__` written first, `not__`
second): the remaining path is resolved and the `(negate = true, path,
value)` triple is routed to the chain (respectively OR) list; `chain__`
and `or__` are mutually exclusive, `chain__` winning (`chain__or__x` keeps
`or__x` as its field path).  With `not__` written first the `chain__`
prefix is not recognized (see the counterexample). -/
theorem claim_C3_amended_prefix_order (m : Model) (p v nk : PyStr)
    (pv : PyVal) (dist : Bool)
    (hvtp : value_to_python m p v = .ok (pv, .one nk, dist))
    (htxt : containsSub (pys "_as_txt") nk = false)
    (hIntC : pyEndsWith (pys "chain__not__" ++ p) (pys "__int") = false)
    (hSearchC : pyEndsWith (pys "chain__not__" ++ p) (pys "__search") = false)
    (hIntO : pyEndsWith (pys "or__not__" ++ p) (pys "__int") = false)
    (hSearchO : pyEndsWith (pys "or__not__" ++ p) (pys "__search") = false) :
    filter_queryset m [(pys "chain__not__" ++ p, [v])] [] =
      .ok { annotations := [], filterCalls := [[Q.qnot (Q.leaf nk pv)], []],
            isDistinct := dist } ∧
    filter_queryset m [(pys "or__not__" ++ p, [v])] [] =
      .ok { annotations := [], filterCalls := [[Q.qor Q.empty (Q.qnot (Q.leaf nk pv))]],
            isDistinct := dist } ∧
    stripPrefixes (pys "chain__or__" ++ p) = (pys "or__" ++ p, true, false, false) := by
  have eC : pys "chain__not__" ++ p = pys "chain__" ++ (pys "not__" ++ p) := rfl
  have eO : pys "or__not__" ++ p = pys "or__" ++ (pys "not__" ++ p) := rfl
  have dropChain : ∀ X : PyStr, (pys "chain__" ++ X).drop 7 = X := by
    intro X
    rw [show (7 : Nat) = (pys "chain__").length from rfl]
    exact List.drop_left _ _
  have dropOr : ∀ X : PyStr, (pys "or__" ++ X).drop 4 = X := by
    intro X
    rw [show (4 : Nat) = (pys "or__").length from rfl]
    exact List.drop_left _ _
  have dropNot : ∀ X : PyStr, (pys "not__" ++ X).drop 5 = X := by
    intro X
    rw [show (5 : Nat) = (pys "not__").length from rfl]
    exact List.drop_left _ _
  have hstripC : stripPrefixes (pys "chain__not__" ++ p) = (p, true, false, true) := by
    rw [stripPrefixes, eC]
    rw [pyStartsWith_append (pys "chain__") (pys "not__" ++ p)]
    simp only [if_true]
    rw [dropChain, pyStartsWith_append (pys "not__") p]
    simp only [if_true, dropNot]
  have hstripO : stripPrefixes (pys "or__not__" ++ p) = (p, false, true, true) := by
    rw [stripPrefixes]
    rw [pyStartsWith_lit_false (pys "or__not__") (pys "chain__") p (by decide) (by decide)]
    simp only [Bool.false_eq_true, if_false]
    rw [eO, pyStartsWith_append (pys "or__") (pys "not__" ++ p)]
    simp only [if_true]
    rw [dropOr, pyStartsWith_append (pys "not__") p]
    simp only [if_true, dropNot]
  have hstripCO : stripPrefixes (pys "chain__or__" ++ p) =
      (pys "or__" ++ p, true, false, false) := by
    have e2 : pys "chain__or__" ++ p = pys "chain__" ++ (pys "or__" ++ p) := rfl
    rw [stripPrefixes, e2]
    rw [pyStartsWith_append (pys "chain__") (pys "or__" ++ p)]
    simp only [if_true]
    rw [dropChain]
    rw [pyStartsWith_false_of_head (by decide)
      (show (pys "or__" ++ p).head? ≠ (pys "not__").head? by
        rw [show (pys "or__" ++ p).head? = some 'o' from rfl]
        decide)]
    simp only [Bool.false_eq_true, if_false]
  have hroleGen : ∀ lit : PyStr, pyStartsWith lit (pys "chain__") = true ∨
      pyStartsWith lit (pys "or__") = true → ¬ (lit = pys "role_level") := by
    intro lit hsw heq
    rw [heq] at hsw
    rcases hsw with h2 | h2 <;> exact absurd h2 (by decide)
  have hCreated : pyStartsWith (pys "chain__not__" ++ p) (pys "created") = false :=
    pyStartsWith_lit_false _ _ p (by decide) (by decide)
  have hHosts : pyStartsWith (pys "chain__not__" ++ p) (pys "hosts__name") = false :=
    pyStartsWith_lit_false _ _ p (by decide) (by decide)
  have hCreatedO : pyStartsWith (pys "or__not__" ++ p) (pys "created") = false :=
    pyStartsWith_false_of_head (by decide)
      (by rw [show (pys "or__not__" ++ p).head? = some 'o' from rfl]; decide)
  have hHostsO : pyStartsWith (pys "or__not__" ++ p) (pys "hosts__name") = false :=
    pyStartsWith_false_of_head (by decide)
      (by rw [show (pys "or__not__" ++ p).head? = some 'o' from rfl]; decide)
  have hrole := hroleGen (pys "chain__not__" ++ p)
    (Or.inl (by rw [eC]; exact pyStartsWith_append _ _))
  have hroleO := hroleGen (pys "or__not__" ++ p)
    (Or.inr (by rw [eO]; exact pyStartsWith_append _ _))
  refine ⟨?_, ?_, hstripCO⟩
  · rw [filter_queryset, processParams, processParamsFrom, processParam]
    simp only [List.not_mem_nil, if_false, userCreatedKey_skip hCreated,
      jobEventState_skip hHosts, jobEventKey_skip hHosts, stripInt_skip hIntC,
      hSearchC, Bool.false_eq_true, if_neg hrole, hstripC]
    simp only [foldE_singleton_ok
      (processValue_ok m p v nk pv dist initState true false true hvtp htxt),
      processParamsFrom]
    cases dist <;> simp [buildQuery, QuerySet.filter, qOf, initState]
  · rw [filter_queryset, processParams, processParamsFrom, processParam]
    simp only [List.not_mem_nil, if_false, userCreatedKey_skip hCreatedO,
      jobEventState_skip hHostsO, jobEventKey_skip hHostsO, stripInt_skip hIntO,
      hSearchO, Bool.false_eq_true, if_neg hroleO, hstripO]
    simp only [foldE_singleton_ok
      (processValue_ok m p v nk pv dist initState false true true hvtp htxt),
      processParamsFrom]
    cases dist <;> simp [buildQuery, QuerySet.filter, qOf, initState, orGroup]

/-- Witness for C3 (amended) at path `x` over the fixture schema. -/
theorem claim_C3_amended_prefix_order_witness :
    filter_queryset widgetModel [(pys "chain__not__" ++ pys "x", [pys "v"])] [] =
      .ok { annotations := [],
            filterCalls := [[Q.qnot (Q.leaf (pys "x__exact") (PyVal.str (pys "v")))], []],
            isDistinct := false } ∧
    filter_queryset widgetModel [(pys "or__not__" ++ pys "x", [pys "v"])] [] =
      .ok { annotations := [],
            filterCalls := [[Q.qor Q.empty (Q.qnot (Q.leaf (pys "x__exact") (PyVal.str (pys "v"))))]],
            isDistinct := false } ∧
    stripPrefixes (pys "chain__or__" ++ pys "x") = (pys "or__" ++ pys "x", true, false, false) := by
  have h := claim_C3_amended_prefix_order widgetModel (pys "x") (pys "v") (pys "x__exact")
    (PyVal.str (pys "v")) false (by decide) (by decide) (by decide) (by decide)
    (by decide) (by decide)
  exact ⟨h.1, h.2.1, h.2.2⟩

theorem processValue_roleFilters {m : Model} {key : PyStr}
    {qInt qChain qOr qNot : Bool} {st st2 : FState} {v : PyStr}
    (h : processValue m key qInt qChain qOr qNot st v = .ok st2) :
    st2.roleFilters = st.roleFilters := by
  rw [processValue] at h
  repeat' split at h
  all_goals cases h
  all_goals rw [routeValue]
  all_goals repeat' split
  all_goals rfl

theorem processSearchValue_roleFilters {m : Model} {key : PyStr} {st st2 : FState}
    {v : PyStr} (h : processSearchValue m key st v = .ok st2) :
    st2.roleFilters = st.roleFilters := by
  rw [processSearchValue] at h
  repeat' split at h
  all_goals cases h
  all_goals rfl

theorem foldE_roleFilters {α : Type} {f : FState → α → Except PyStr FState}
    (hf : ∀ st st2 v, f st v = .ok st2 → st2.roleFilters = st.roleFilters) :
    ∀ (vs : List α) (st st2 : FState), foldE f st vs = .ok st2 →
      st2.roleFilters = st.roleFilters := by
  intro vs
  induction vs with
  | nil =>
    intro st st2 h
    rw [foldE] at h
    cases h
    rfl
  | cons v vs ih =>
    intro st st2 h
    rw [foldE] at h
    rcases hv : f st v with _ | stm <;> rw [hv] at h
    · cases h
    · exact (ih stm st2 h).trans (hf st stm v hv)


theorem jobEventState_roleFilters (m : Model) (key : PyStr) (st : FState) :
    (jobEventState m key st).roleFilters = st.roleFilters := by
  rw [jobEventState]
  split <;> rfl

theorem searchBranch_roleFilters {m : Model} {key : PyStr} {values : List PyStr}
    {st st2 : FState} (h : searchBranch m key values st = .ok st2) :
    st2.roleFilters = st.roleFilters := by
  rw [searchBranch.eq_def] at h
  simp only [] at h
  rcases hf : foldE (processSearchValue m key) _ _ with _ | stm <;> rw [hf] at h
  · cases h
  · cases h
    have h2 := foldE_roleFilters (fun a b c hh => processSearchValue_roleFilters hh) _ _ _ hf
    exact h2

theorem roleAppend_ex {A B : List PyStr} {v : PyStr} (h : A = B) :
    ∃ ext, A ++ [v] = B ++ ext := ⟨[v], by rw [h]⟩

theorem processParam_roleFilters {m : Model} {reserved : List PyStr} {st st2 : FState}
    {kv : PyStr × List PyStr} (h : processParam m reserved st kv = .ok st2) :
    ∃ ext, st2.roleFilters = st.roleFilters ++ ext := by
  rw [processParam] at h
  split at h
  · cases h
    exact ⟨[], by simp⟩
  · simp only [] at h
    split at h
    · split at h
      · cases h
      · cases h
        exact roleAppend_ex (jobEventState_roleFilters m _ st)
    · split at h
      · exact ⟨[], by
          rw [searchBranch_roleFilters h, jobEventState_roleFilters, List.append_nil]⟩
      · exact ⟨[], by
          rw [foldE_roleFilters (fun a b c hh => processValue_roleFilters hh) _ _ _ h,
            jobEventState_roleFilters, List.append_nil]⟩

theorem processParamsFrom_nil (m : Model) (reserved : List PyStr) (st : FState) :
    processParamsFrom m reserved st [] = .ok st := rfl

theorem processParamsFrom_cons (m : Model) (reserved : List PyStr) (st : FState)
    (kv : PyStr × List PyStr) (kvs : List (PyStr × List PyStr)) :
    processParamsFrom m reserved st (kv :: kvs) =
      match processParam m reserved st kv with
      | .error e => .error e
      | .ok st2 => processParamsFrom m reserved st2 kvs := rfl

theorem processParamsFrom_roleFilters {m : Model} {reserved : List PyStr} :
    ∀ (kvs : List (PyStr × List PyStr)) (st st2 : FState),
      processParamsFrom m reserved st kvs = .ok st2 →
      ∃ ext, st2.roleFilters = st.roleFilters ++ ext := by
  intro kvs
  induction kvs with
  | nil =>
    intro st st2 h
    rw [processParamsFrom] at h
    cases h
    exact ⟨[], by simp⟩
  | cons kv kvs ih =>
    intro st st2 h
    rw [processParamsFrom] at h
    rcases hp : processParam m reserved st kv with _ | stm <;> rw [hp] at h
    · cases h
    · obtain ⟨e1, he1⟩ := processParam_roleFilters hp
      obtain ⟨e2, he2⟩ := ih stm st2 h
      exact ⟨e1 ++ e2, by rw [he2, he1, List.append_assoc]⟩

theorem processParamsFrom_append (m : Model) (reserved : List PyStr) :
    ∀ (l1 l2 : List (PyStr × List PyStr)) (st : FState),
      processParamsFrom m reserved st (l1 ++ l2) =
        match processParamsFrom m reserved st l1 with
        | .error e => .error e
        | .ok st2 => processParamsFrom m reserved st2 l2 := by
  intro l1
  induction l1 with
  | nil =>
    intro l2 st
    rw [List.nil_append, processParamsFrom]
  | cons kv l1 ih =>
    intro l2 st
    rw [List.cons_append, processParamsFrom, processParamsFrom]
    rcases hp : processParam m reserved st kv with _ | stm
    · rfl
    · exact ih l2 stm

theorem processParam_role_step (m : Model) (st : FState) (v : PyStr) (vs : List PyStr) :
    processParam m [] st (pys "role_level", v :: vs) =
      .ok { st with roleFilters := st.roleFilters ++ [v] } := by
  rw [processParam]
  simp only [List.not_mem_nil, if_false,
    userCreatedKey_skip (by decide : pyStartsWith (pys "role_level") (pys "created") = false),
    jobEventState_skip (by decide : pyStartsWith (pys "role_level") (pys "hosts__name") = false),
    jobEventKey_skip (by decide : pyStartsWith (pys "role_level") (pys "hosts__name") = false),
    stripInt_skip (by decide : pyEndsWith (pys "role_level") (pys "__int") = false)]
  rw [if_pos trivial]

theorem buildQuery_role_error {m : Model} {st : FState} (hr : st.roleFilters ≠ [])
    (hcap : m.hasAccessiblePkQs = false) :
    buildQuery m st =
      .error (pys "Cannot apply role_level filter to this list because its model does not use roles for access control.") := by
  rw [buildQuery]
  rw [if_neg (fun hc => hr hc.2.2.2.1)]
  rw [if_pos ⟨hr, by simp [hcap]⟩]

/-- C4 (amended): for every parameter set containing the key `role_level`
(with at least one value) whose key loop otherwise succeeds, a model
without `accessible_pk_qs` makes the compilation fail with the
configuration error; with the capability, the first value of each
`role_level` parameter becomes one "primary key in accessible set"
constraint conjoined with the other filters (subsequent values of the same
parameter are dropped, see the counterexample). -/
theorem claim_C4_amended_role_level (m : Model) :
    (∀ (ps1 ps2 : List (PyStr × List PyStr)) (v : PyStr) (vs : List PyStr) (st : FState),
      m.hasAccessiblePkQs = false →
      processParams m [] (ps1 ++ (pys "role_level", v :: vs) :: ps2) = .ok st →
      filter_queryset m (ps1 ++ (pys "role_level", v :: vs) :: ps2) [] =
        .error (pys "Cannot apply role_level filter to this list because its model does not use roles for access control.")) ∧
    (∀ (v : PyStr) (vs : List PyStr),
      m.hasAccessiblePkQs = true →
      filter_queryset m [(pys "role_level", v :: vs)] [] =
        .ok { annotations := [], filterCalls := [[Q.roleLeaf v]], isDistinct := false }) := by
  constructor
  · intro ps1 ps2 v vs st hcap hok
    rw [filter_queryset, hok]
    have hmono : st.roleFilters ≠ [] := by
      rw [processParams, processParamsFrom_append] at hok
      rcases h1 : processParamsFrom m [] initState ps1 with _ | st1 <;> rw [h1] at hok
      · cases hok
      · replace hok : processParamsFrom m [] st1 ((pys "role_level", v :: vs) :: ps2) =
            Except.ok st := hok
        rw [processParamsFrom_cons] at hok
        simp only [processParam_role_step] at hok
        obtain ⟨ext, hext⟩ := processParamsFrom_roleFilters ps2 _ st hok
        rw [hext]
        simp
    exact buildQuery_role_error hmono hcap
  · intro v vs hcap
    rw [filter_queryset, processParams, processParamsFrom_cons]
    simp only [processParam_role_step, processParamsFrom_nil]
    rw [buildQuery]
    rw [if_neg (fun hc => by
      have h4 := hc.2.2.2.1
      simp [initState] at h4)]
    rw [if_neg (fun hc => by rw [hcap] at hc; exact hc.2 rfl)]
    simp [initState, QuerySet.filter]

/-- Witness for C4 (amended): `role_level=admin` on the fixture schema,
without and with the role-access capability. -/
theorem claim_C4_amended_role_level_witness :
    filter_queryset widgetModel [(pys "role_level", [pys "admin"])] [] =
      .error (pys "Cannot apply role_level filter to this list because its model does not use roles for access control.") ∧
    filter_queryset widgetModelWithRoles [(pys "role_level", [pys "admin"])] [] =
      .ok { annotations := [], filterCalls := [[Q.roleLeaf (pys "admin")]],
            isDistinct := false } := by
  constructor
  · exact (claim_C4_amended_role_level widgetModel).1 [] [] (pys "admin") []
      { initState with roleFilters := [pys "admin"] } rfl (by decide)
  · exact (claim_C4_amended_role_level widgetModelWithRoles).2 (pys "admin") [] rfl

theorem userCreatedKey_skip_name {m : Model} (key : PyStr)
    (h : m.objectName ≠ pys "User") : userCreatedKey m key = key := by
  rw [userCreatedKey, if_neg (fun hc => h hc.1)]

theorem jobEventKey_skip_name {m : Model} (key : PyStr)
    (h : m.objectName ≠ pys "JobEvent") : jobEventKey m key = key := by
  rw [jobEventKey, if_neg (fun hc => h hc.1)]

theorem jobEventState_skip_name {m : Model} (key : PyStr) (st : FState)
    (h : m.objectName ≠ pys "JobEvent") : jobEventState m key st = st := by
  rw [jobEventState, if_neg (fun hc => h hc.1)]

theorem value_to_python_congr {m1 m2 : Model} (hres : m1.resolve = m2.resolve)
    (hreg : m1.regexCompiles = m2.regexCompiles) :
    value_to_python m1 = value_to_python m2 := by
  funext lookup value
  simp only [value_to_python, get_fields_from_lookup, hres, hreg]

theorem processParam_congr {m1 m2 : Model} (hres : m1.resolve = m2.resolve)
    (hreg : m1.regexCompiles = m2.regexCompiles)
    (hU1 : m1.objectName ≠ pys "User") (hJ1 : m1.objectName ≠ pys "JobEvent")
    (hU2 : m2.objectName ≠ pys "User") (hJ2 : m2.objectName ≠ pys "JobEvent")
    (reserved : List PyStr) (st : FState) (kv : PyStr × List PyStr) :
    processParam m1 reserved st kv = processParam m2 reserved st kv := by
  have hvtp := value_to_python_congr hres hreg
  have hpsv : processSearchValue m1 = processSearchValue m2 := by
    funext key st v
    simp only [processSearchValue, hvtp]
  have hpv : ∀ key qInt qChain qOr qNot,
      processValue m1 key qInt qChain qOr qNot = processValue m2 key qInt qChain qOr qNot := by
    intro key qInt qChain qOr qNot
    funext st v
    simp only [processValue, hvtp]
  have hsb : ∀ key values st, searchBranch m1 key values st = searchBranch m2 key values st := by
    intro key values st
    simp only [searchBranch, hpsv]
  simp only [processParam, userCreatedKey_skip_name _ hU1, userCreatedKey_skip_name _ hU2,
    jobEventKey_skip_name _ hJ1, jobEventKey_skip_name _ hJ2,
    jobEventState_skip_name _ _ hJ1, jobEventState_skip_name _ _ hJ2, hsb, hpv]

/-- C8 (amended): for every two models with identical schemas (the same
`resolve` oracle), identical regex environment and identical role-access
capability, whose object names are both neither `User` nor `JobEvent`,
compiling any query parameter set produces identical results: apart from
the two hard-coded hacks (see the counterexample), the compiled output
does not depend on the model's object name. -/
theorem claim_C8_amended_output_model_name_independent (m1 m2 : Model)
    (hres : m1.resolve = m2.resolve) (hreg : m1.regexCompiles = m2.regexCompiles)
    (hcap : m1.hasAccessiblePkQs = m2.hasAccessiblePkQs)
    (hU1 : m1.objectName ≠ pys "User") (hJ1 : m1.objectName ≠ pys "JobEvent")
    (hU2 : m2.objectName ≠ pys "User") (hJ2 : m2.objectName ≠ pys "JobEvent") :
    ∀ (params : List (PyStr × List PyStr)) (reserved : List PyStr),
      filter_queryset m1 params reserved = filter_queryset m2 params reserved := by
  intro params reserved
  have hpp : ∀ (kvs : List (PyStr × List PyStr)) (st : FState),
      processParamsFrom m1 reserved st kvs = processParamsFrom m2 reserved st kvs := by
    intro kvs
    induction kvs with
    | nil => intro st; rfl
    | cons kv kvs ih =>
      intro st
      rw [processParamsFrom_cons, processParamsFrom_cons,
        processParam_congr hres hreg hU1 hJ1 hU2 hJ2]
      rcases processParam m2 reserved st kv with _ | stm
      · rfl
      · exact ih stm
  have hbq : ∀ st : FState, buildQuery m1 st = buildQuery m2 st := by
    intro st
    simp only [buildQuery, hcap]
  rw [filter_queryset, filter_queryset, processParams, processParams, hpp params initState]
  rcases processParamsFrom m2 reserved initState params with _ | st
  · rfl
  · exact hbq st

/-- Witness for C8 (amended): renaming the fixture `Widget` model to
`Gadget` leaves the compiled output unchanged. -/
theorem claim_C8_amended_output_model_name_independent_witness :
    filter_queryset widgetModel [(pys "created", [pys "5"])] [] =
      filter_queryset { widgetModel with objectName := pys "Gadget" }
        [(pys "created", [pys "5"])] [] :=
  claim_C8_amended_output_model_name_independent _ _ rfl rfl rfl
    (by decide) (by decide) (by decide) (by decide) _ _

theorem vtp_search_ok (m : Model) (p np : PyStr) (fl : List FieldD) (fld : FieldD)
    (R : List PyStr)
    (hres : m.resolve p = .ok (fl, np)) (hlast : fl.getLast? = some fld)
    (hrel : fld.relatedFields = some R) (hp : p ≠ [])
    (hasc : pyIsAscii (p ++ pys "__search") = true)
    (hpoly : pyStartsWith (np ++ pys "__search") (pys "polymorphic_ctype__model") = false)
    (t : PyStr) :
    value_to_python m (p ++ pys "__search") t =
      .ok (.str t,
        .many ((R.filter (fun n => n ∈ SEARCHABLE_FIELDS)).map
          (fun n => np ++ pys "__" ++ n ++ pys "__icontains")),
        ! fl.all noDuplicatesAllowed) := by
  have hnl : np ++ pys "__" ++ pys "search" = np ++ pys "__search" := by
    rw [List.append_assoc]
    rfl
  have hgfl : get_fields_from_lookup m (p ++ pys "__search") =
      .ok (fl, np ++ pys "__search") := by
    rw [get_fields_from_lookup]
    simp only [pathSuffix_append_search]
    rw [if_neg hp, hres]
    show Except.ok (fl, np ++ pys "__" ++ pys "search") = _
    rw [hnl]
  have e_isnull : pyEndsWith (np ++ pys "__search") (pys "__isnull") = false := by
    rw [pyEndsWith_append np (by decide)]; decide
  have e_in : pyEndsWith (np ++ pys "__search") (pys "__in") = false := by
    rw [pyEndsWith_append np (by decide)]; decide
  have e_regex : pyEndsWith (np ++ pys "__search") (pys "__regex") = false := by
    rw [pyEndsWith_append np (by decide)]; decide
  have e_iregex : pyEndsWith (np ++ pys "__search") (pys "__iregex") = false := by
    rw [pyEndsWith_append np (by decide)]; decide
  have e_iexact : pyEndsWith (np ++ pys "__search") (pys "__iexact") = false := by
    rw [pyEndsWith_append np (by decide)]; decide
  have e_search : pyEndsWith (np ++ pys "__search") (pys "__search") = true := by
    rw [pyEndsWith_append np (by decide)]; decide
  have e_take : (np ++ pys "__search").take ((np ++ pys "__search").length - 8) = np := by
    have hlen : (np ++ pys "__search").length - 8 = np.length := by
      simp only [List.length_append]
      rw [show (pys "__search").length = 8 from rfl]
      omega
    rw [hlen]
    exact List.take_left _ _
  simp only [value_to_python, hasc, hgfl, hlast, hpoly, e_isnull, e_in, e_regex,
    e_iregex, e_iexact, e_search, hrel, e_take, not_true, Bool.false_eq_true,
    Bool.true_eq_false, if_false, if_true, or_self]

theorem foldE_search_dict {m : Model} {key : PyStr} {lookups : List PyStr} {nd : Bool}
    (hv : ∀ t, value_to_python m key t = .ok (.str t, .many lookups, nd)) :
    ∀ (terms : List PyStr) (st : FState),
      foldE (processSearchValue m key) st terms =
        .ok { st with searchFilters :=
          (terms.foldl (fun d t => dictInsert d t lookups) st.searchFilters) } := by
  intro terms
  induction terms with
  | nil =>
    intro st
    rw [foldE]
    rfl
  | cons t ts ih =>
    intro st
    rw [foldE]
    rw [show processSearchValue m key st t =
        .ok { st with searchFilters := dictInsert st.searchFilters t lookups } from by
      rw [processSearchValue.eq_def, hv t]
      rfl]
    show foldE (processSearchValue m key)
        { st with searchFilters := dictInsert st.searchFilters t lookups } ts =
      .ok { st with searchFilters :=
        ((t :: ts).foldl (fun d t => dictInsert d t lookups) st.searchFilters) }
    rw [ih, List.foldl_cons]

theorem dictInsert_ne_nil (d : List (PyStr × List PyStr)) (k : PyStr) (v : List PyStr) :
    dictInsert d k v ≠ [] := by
  rw [dictInsert]
  split
  · rename_i hany
    intro hc
    rw [List.map_eq_nil_iff] at hc
    subst hc
    simp at hany
  · simp

theorem foldl_dictInsert_ne_nil (lookups : List PyStr) :
    ∀ (terms : List PyStr) (d : List (PyStr × List PyStr)),
      d ≠ [] ∨ terms ≠ [] →
      terms.foldl (fun d t => dictInsert d t lookups) d ≠ [] := by
  intro terms
  induction terms with
  | nil =>
    intro d h
    rcases h with h | h
    · exact h
    · exact absurd rfl h
  | cons t ts ih =>
    intro d h
    rw [List.foldl_cons]
    exact ih _ (Or.inl (dictInsert_ne_nil d t lookups))

theorem pySplitComma_ne_nil (s : PyStr) : pySplitComma s ≠ [] := by
  match s with
  | [] => simp [pySplitComma]
  | c :: rest =>
    rw [pySplitComma]
    split
    · simp
    · rcases h : pySplitComma rest with _ | ⟨g, gs⟩ <;> simp

theorem vtp_search_none (m : Model) (p np : PyStr) (fl : List FieldD) (fld : FieldD)
    (hres : m.resolve p = .ok (fl, np)) (hlast : fl.getLast? = some fld)
    (hrel : fld.relatedFields = Option.none) (hp : p ≠ [])
    (hasc : pyIsAscii (p ++ pys "__search") = true)
    (hpoly : pyStartsWith (np ++ pys "__search") (pys "polymorphic_ctype__model") = false)
    (t : PyStr) :
    value_to_python m (p ++ pys "__search") t =
      .error (np ++ pys " is not searchable") := by
  have hnl : np ++ pys "__" ++ pys "search" = np ++ pys "__search" := by
    rw [List.append_assoc]
    rfl
  have hgfl : get_fields_from_lookup m (p ++ pys "__search") =
      .ok (fl, np ++ pys "__search") := by
    rw [get_fields_from_lookup]
    simp only [pathSuffix_append_search]
    rw [if_neg hp, hres]
    show Except.ok (fl, np ++ pys "__" ++ pys "search") = _
    rw [hnl]
  have e_isnull : pyEndsWith (np ++ pys "__search") (pys "__isnull") = false := by
    rw [pyEndsWith_append np (by decide)]; decide
  have e_in : pyEndsWith (np ++ pys "__search") (pys "__in") = false := by
    rw [pyEndsWith_append np (by decide)]; decide
  have e_regex : pyEndsWith (np ++ pys "__search") (pys "__regex") = false := by
    rw [pyEndsWith_append np (by decide)]; decide
  have e_iregex : pyEndsWith (np ++ pys "__search") (pys "__iregex") = false := by
    rw [pyEndsWith_append np (by decide)]; decide
  have e_iexact : pyEndsWith (np ++ pys "__search") (pys "__iexact") = false := by
    rw [pyEndsWith_append np (by decide)]; decide
  have e_search : pyEndsWith (np ++ pys "__search") (pys "__search") = true := by
    rw [pyEndsWith_append np (by decide)]; decide
  have e_take : (np ++ pys "__search").take ((np ++ pys "__search").length - 8) = np := by
    have hlen : (np ++ pys "__search").length - 8 = np.length := by
      simp only [List.length_append]
      rw [show (pys "__search").length = 8 from rfl]
      omega
    rw [hlen]
    exact List.take_left _ _
  simp only [value_to_python, hasc, hgfl, hlast, hpoly, e_isnull, e_in, e_regex,
    e_iregex, e_iexact, e_search, hrel, e_take, not_true, Bool.false_eq_true,
    Bool.true_eq_false, if_false, if_true, or_self]

theorem foldE_error_head {α : Type} {f : FState → α → Except PyStr FState}
    {st : FState} {t : α} {e : PyStr} (h : f st t = .error e) (ts : List α) :
    foldE f st (t :: ts) = .error e := by
  rw [foldE, h]

theorem searchBranch_ok {m : Model} {key : PyStr} {lookups : List PyStr} {nd : Bool}
    (hv : ∀ t, value_to_python m key t = .ok (.str t, .many lookups, nd))
    (v0 : PyStr) (vs : List PyStr) (st : FState) :
    searchBranch m key (v0 :: vs) st =
      (let rel := if v0.contains ',' then pys "AND" else st.searchRelation
       let terms := if v0.contains ',' then ((v0 :: vs).map pySplitComma).flatten
         else v0 :: vs
       .ok { st with
         searchRelation := rel
         searchFilters :=
           (terms.foldl (fun d t => dictInsert d t lookups) st.searchFilters)
         needsDistinct := true }) := by
  simp only [searchBranch]
  by_cases hc : v0.contains ','
  · simp only [hc, if_true]
    rw [foldE_search_dict hv]
  · simp only [hc, Bool.false_eq_true, if_false]
    rw [foldE_search_dict hv]

theorem searchBranch_err {m : Model} {key E : PyStr}
    (hv : ∀ t, value_to_python m key t = .error E)
    (v0 : PyStr) (vs : List PyStr) (st : FState) :
    searchBranch m key (v0 :: vs) st = .error E := by
  simp only [searchBranch]
  by_cases hc : v0.contains ','
  · simp only [hc, if_true]
    rcases h0 : pySplitComma v0 with _ | ⟨t0, ts0⟩
    · exact absurd h0 (pySplitComma_ne_nil v0)
    · rw [List.map_cons, List.flatten_cons, h0, List.cons_append]
      rw [foldE_error_head (by rw [processSearchValue.eq_def, hv t0]) _]
  · simp only [hc, Bool.false_eq_true, if_false]
    rw [foldE_error_head (by rw [processSearchValue.eq_def, hv v0]) _]

theorem processParam_search_step (m : Model) (p : PyStr) (values : List PyStr)
    (st : FState) (hU : m.objectName ≠ pys "User") (hJ : m.objectName ≠ pys "JobEvent") :
    processParam m [] st (p ++ pys "__search", values) =
      searchBranch m (p ++ pys "__search") values st := by
  have hsrch : pyEndsWith (p ++ pys "__search") (pys "__search") = true := by
    rw [pyEndsWith_append p (by decide)]; decide
  have hrole : ¬ (p ++ pys "__search" = pys "role_level") := by
    intro h
    rw [h] at hsrch
    exact absurd hsrch (by decide)
  rw [processParam]
  simp only [List.not_mem_nil, if_false,
    userCreatedKey_skip_name _ hU, jobEventState_skip_name _ _ hJ,
    jobEventKey_skip_name _ hJ,
    stripInt_skip (show pyEndsWith (p ++ pys "__search") (pys "__int") = false by
      rw [pyEndsWith_append p (by decide)]; decide)]
  rw [if_neg hrole]
  rw [if_pos hsrch]

theorem foldl_filter_single (g : (PyStr × List PyStr) → Q) :
    ∀ (D : List (PyStr × List PyStr)) (qs : QuerySet),
      D.foldl (fun qs tc => qs.filter [g tc]) qs =
        { qs with filterCalls := qs.filterCalls ++ D.map (fun tc => [g tc]) } := by
  intro D
  induction D with
  | nil =>
    intro qs
    rw [List.foldl_nil, List.map_nil, List.append_nil]
  | cons tc D ih =>
    intro D
    rw [List.foldl_cons, ih, List.map_cons]
    rw [QuerySet.filter]
    rw [List.append_assoc]
    rfl

theorem buildQuery_search_or (m : Model) (D : List (PyStr × List PyStr)) (hD : D ≠ []) :
    buildQuery m { initState with searchFilters := D, needsDistinct := true } =
      .ok { annotations := []
            filterCalls := [[D.foldl (fun q tc => searchTermGroup tc.1 tc.2 q) Q.empty]]
            isDistinct := true } := by
  simp only [buildQuery, initState]
  rw [if_neg (fun h => hD h.2.2.2.2)]
  rw [if_neg (fun h => h.1 rfl)]
  rw [if_neg (show ¬ (([] : List (Bool × PyStr × PyVal)) ≠ []) from fun h => h rfl)]
  rw [if_pos (show D ≠ [] ∧ True from ⟨hD, trivial⟩)]
  rw [if_neg (show ¬ (D ≠ [] ∧ pys "OR" = pys "AND") from fun h => absurd h.2 (by decide))]
  rw [if_pos trivial]
  rfl

theorem buildQuery_search_and (m : Model) (D : List (PyStr × List PyStr)) (hD : D ≠ []) :
    buildQuery m
        { initState with
            searchFilters := D, needsDistinct := true, searchRelation := pys "AND" } =
      .ok { annotations := []
            filterCalls := D.map (fun tc => [searchTermGroup tc.1 tc.2 Q.empty]) ++ [[]]
            isDistinct := true } := by
  simp only [buildQuery, initState]
  rw [if_neg (fun h => hD h.2.2.2.2)]
  rw [if_neg (fun h => h.1 rfl)]
  rw [if_neg (show ¬ (([] : List (Bool × PyStr × PyVal)) ≠ []) from fun h => h rfl)]
  rw [if_neg (show ¬ (D ≠ [] ∧ pys "AND" = pys "OR") from fun h => absurd h.2 (by decide))]
  rw [if_pos (show D ≠ [] ∧ True from ⟨hD, trivial⟩)]
  rw [foldl_filter_single]
  rw [if_pos trivial]
  rfl

/-- C2 (amended): for a `__search` query parameter over a searchable path
(related model present), only the FIRST value is tested for a comma: if it
contains one, ALL values are split on commas and the resulting terms are
AND-combined — each distinct term becomes its own `.filter` call holding
one OR-group of `icontains` lookups over exactly the related model's
fields named username / first_name / last_name / email / name /
description / playbook — otherwise the terms are OR-combined into a single
OR-group spanning all terms (duplicate terms are collapsed by the
term-keyed dict); a path whose field has no related model is a hard
failure `<path> is not searchable`; and the compiled queryset is distinct
whenever a search parameter with at least one value is present. -/
theorem claim_C2_amended_search (m : Model) (p np : PyStr) (fl : List FieldD)
    (fld : FieldD)
    (hU : m.objectName ≠ pys "User") (hJ : m.objectName ≠ pys "JobEvent")
    (hres : m.resolve p = .ok (fl, np)) (hlast : fl.getLast? = some fld)
    (hp : p ≠ []) (hasc : pyIsAscii (p ++ pys "__search") = true)
    (hpoly : pyStartsWith (np ++ pys "__search") (pys "polymorphic_ctype__model") = false)
    (v0 : PyStr) (vs : List PyStr) :
    (fld.relatedFields = Option.none →
      filter_queryset m [(p ++ pys "__search", v0 :: vs)] [] =
        .error (np ++ pys " is not searchable")) ∧
    (∀ R, fld.relatedFields = some R →
      filter_queryset m [(p ++ pys "__search", v0 :: vs)] [] =
        (let lookups := (R.filter (fun n => n ∈ SEARCHABLE_FIELDS)).map
            (fun n => np ++ pys "__" ++ n ++ pys "__icontains")
         let terms := if v0.contains ',' then ((v0 :: vs).map pySplitComma).flatten
            else v0 :: vs
         let D := terms.foldl (fun d t => dictInsert d t lookups) []
         if v0.contains ',' then
           .ok { annotations := []
                 filterCalls := D.map (fun tc => [searchTermGroup tc.1 tc.2 Q.empty]) ++ [[]]
                 isDistinct := true }
         else
           .ok { annotations := []
                 filterCalls := [[D.foldl (fun q tc => searchTermGroup tc.1 tc.2 q) Q.empty]]
                 isDistinct := true })) := by
  constructor
  · intro hrel
    rw [filter_queryset, processParams, processParamsFrom_cons]
    rw [processParam_search_step m p (v0 :: vs) initState hU hJ]
    rw [searchBranch_err (vtp_search_none m p np fl fld hres hlast hrel hp hasc hpoly)
      v0 vs initState]
  · intro R hrel
    rw [filter_queryset, processParams, processParamsFrom_cons]
    rw [processParam_search_step m p (v0 :: vs) initState hU hJ]
    rw [searchBranch_ok (vtp_search_ok m p np fl fld R hres hlast hrel hp hasc hpoly)
      v0 vs initState]
    by_cases hc : v0.contains ','
    · simp only [hc, if_true, processParamsFrom_nil]
      rw [buildQuery_search_and m _ (foldl_dictInsert_ne_nil _ _ _ (Or.inr (by
        rw [List.map_cons, List.flatten_cons]
        intro h
        exact pySplitComma_ne_nil v0 (List.append_eq_nil.mp h).1)))]
      rfl
    · simp only [hc, Bool.false_eq_true, if_false, processParamsFrom_nil]
      rw [buildQuery_search_or m _ (foldl_dictInsert_ne_nil _ _ _
        (Or.inr (List.cons_ne_nil v0 vs)))]
      rfl

/-- Witness for C2 (amended): `related__search` with values `["a,b", "c"]`
on the fixture schema — the comma in the first value switches to AND, all
values are split, and each term becomes its own filter call of `icontains`
lookups over the searchable related fields, with a distinct queryset. -/
theorem claim_C2_amended_search_witness :
    filter_queryset widgetModel [(pys "related__search", [pys "a,b", pys "c"])] [] =
      .ok { annotations := []
            filterCalls :=
              [[Q.qor (Q.qor Q.empty
                  (Q.leaf (pys "related__name__icontains") (PyVal.str (pys "a"))))
                  (Q.leaf (pys "related__email__icontains") (PyVal.str (pys "a")))],
               [Q.qor (Q.qor Q.empty
                  (Q.leaf (pys "related__name__icontains") (PyVal.str (pys "b"))))
                  (Q.leaf (pys "related__email__icontains") (PyVal.str (pys "b")))],
               [Q.qor (Q.qor Q.empty
                  (Q.leaf (pys "related__name__icontains") (PyVal.str (pys "c"))))
                  (Q.leaf (pys "related__email__icontains") (PyVal.str (pys "c")))],
               []]
            isDistinct := true } :=
  ((claim_C2_amended_search widgetModel (pys "related") (pys "related")
      [{ name := pys "related", kind := .relation,
         relatedFields := some [pys "id", pys "name", pys "email"] }]
      { name := pys "related", kind := .relation,
        relatedFields := some [pys "id", pys "name", pys "email"] }
      (by decide) (by decide) (by decide) (by decide) (by decide) (by decide) (by decide)
      (pys "a,b") [pys "c"]).2 [pys "id", pys "name", pys "email"] (by decide)).trans
    (by decide)

theorem pyIsAscii_drop {s : PyStr} (n : Nat) (h : pyIsAscii s = true) :
    pyIsAscii (s.drop n) = true := by
  rw [pyIsAscii, List.all_eq_true] at h ⊢
  intro c hc
  exact h c (List.mem_of_mem_drop hc)

theorem stripPrefixes_ascii {key : PyStr} (h : pyIsAscii key = true) :
    pyIsAscii (stripPrefixes key).1 = true := by
  have step : ∀ (k : PyStr) (b1 b2 : Bool), pyIsAscii k = true →
      pyIsAscii (if pyStartsWith k (pys "not__") then (k.drop 5, b1, b2, true)
        else (k, b1, b2, false)).1 = true := by
    intro k b1 b2 hk
    by_cases h2 : pyStartsWith k (pys "not__")
    · rw [if_pos h2]
      exact pyIsAscii_drop _ hk
    · rw [if_neg h2]
      exact hk
  rw [stripPrefixes]
  by_cases h1 : pyStartsWith key (pys "chain__")
  · rw [if_pos h1]
    exact step _ _ _ (pyIsAscii_drop _ h)
  · rw [if_neg h1]
    by_cases h2 : pyStartsWith key (pys "or__")
    · rw [if_pos h2]
      exact step _ _ _ (pyIsAscii_drop _ h)
    · rw [if_neg h2]
      exact step _ _ _ h

theorem gffl_empty_path {m : Model} {lookup : PyStr} (h : (pathSuffix lookup).1 = []) :
    get_fields_from_lookup m lookup =
      .error (pys "Query string field name not provided.") := by
  rw [get_fields_from_lookup]
  rcases hps : pathSuffix lookup with ⟨path, suffix⟩
  rw [hps] at h
  simp only at h
  subst h
  rfl

theorem vtp_empty_path {m : Model} {lookup : PyStr} (hasc : pyIsAscii lookup = true)
    (h : (pathSuffix lookup).1 = []) (t : PyStr) :
    value_to_python m lookup t =
      .error (pys "Query string field name not provided.") := by
  rw [value_to_python, if_neg (fun hn => hn hasc), gffl_empty_path h]

theorem processValue_error_vtp {m : Model} {key E : PyStr}
    (hv : ∀ t, value_to_python m key t = .error E)
    (b1 b2 b3 : Bool) (st : FState) (t : PyStr) :
    processValue m key false b1 b2 b3 st t = .error E := by
  simp only [processValue, Bool.false_eq_true, if_false, hv]

/-- C9 (amended): for every query parameter (key not reserved, not
`role_level`, without the internal `__int` suffix, ascii, with at least
one value): if the key does not end in `__search`, compilation raises the
parse error `Query string field name not provided.` whenever the field
path left after `chain__`/`or__`/`not__` prefix stripping and
operator-suffix splitting is empty (for example the bare key `__in`, or a
key consisting only of prefixes such as `chain__` or `not__`); if the key
does end in `__search`, the prefixes are NOT stripped — the raw key goes
to field resolution — so the error arises exactly when the raw key's own
suffix-split path is empty (the bare `__search`), while a key like
`not____search` instead attempts to resolve the field `not__` (see the
counterexample). -/
theorem claim_C9_amended_empty_path (m : Model) (key : PyStr) (v : PyStr) (vs : List PyStr)
    (hU : m.objectName ≠ pys "User") (hJ : m.objectName ≠ pys "JobEvent")
    (hint : pyEndsWith key (pys "__int") = false)
    (hrole : key ≠ pys "role_level")
    (hasc : pyIsAscii key = true) :
    (pyEndsWith key (pys "__search") = false →
      (pathSuffix (stripPrefixes key).1).1 = [] →
      filter_queryset m [(key, v :: vs)] [] =
        .error (pys "Query string field name not provided.")) ∧
    (pyEndsWith key (pys "__search") = true →
      (pathSuffix key).1 = [] →
      filter_queryset m [(key, v :: vs)] [] =
        .error (pys "Query string field name not provided.")) := by
  constructor
  · intro hns hpath
    rw [filter_queryset, processParams, processParamsFrom_cons]
    have hstep : processParam m [] initState (key, v :: vs) =
        .error (pys "Query string field name not provided.") := by
      rw [processParam]
      simp only [List.not_mem_nil, if_false,
        userCreatedKey_skip_name _ hU, jobEventState_skip_name _ _ hJ,
        jobEventKey_skip_name _ hJ, stripInt_skip hint]
      rw [if_neg hrole]
      simp only [hns, Bool.false_eq_true, if_false]
      exact foldE_error_head
        (processValue_error_vtp (vtp_empty_path (stripPrefixes_ascii hasc) hpath)
          _ _ _ initState v) vs
    rw [hstep]
  · intro hse hpath
    rw [filter_queryset, processParams, processParamsFrom_cons]
    have hstep : processParam m [] initState (key, v :: vs) =
        .error (pys "Query string field name not provided.") := by
      rw [processParam]
      simp only [List.not_mem_nil, if_false,
        userCreatedKey_skip_name _ hU, jobEventState_skip_name _ _ hJ,
        jobEventKey_skip_name _ hJ, stripInt_skip hint]
      rw [if_neg hrole]
      rw [if_pos hse]
      exact searchBranch_err (vtp_empty_path hasc hpath) v vs initState
    rw [hstep]

/-- Witness for C9 (amended): the bare keys `__in` (empty path after
suffix splitting) and `__search` (empty path in the search branch) both
raise the parse error on the fixture schema. -/
theorem claim_C9_amended_empty_path_witness :
    filter_queryset widgetModel [(pys "__in", [pys "x"])] [] =
      .error (pys "Query string field name not provided.") ∧
    filter_queryset widgetModel [(pys "__search", [pys "x"])] [] =
      .error (pys "Query string field name not provided.") :=
  ⟨(claim_C9_amended_empty_path widgetModel (pys "__in") (pys "x") []
      (by decide) (by decide) (by decide) (by decide) (by decide)).1 (by decide) (by decide),
   (claim_C9_amended_empty_path widgetModel (pys "__search") (pys "x") []
      (by decide) (by decide) (by decide) (by decide) (by decide)).2 (by decide) (by decide)⟩
